import Mathlib

/-!
Verification of the `arglet` flag-merging utility (src/index.ts).

The embedding models JavaScript runtime values as the inductive type `JSVal`.
`arglet` receives a configuration object (`data`), deep-clones it with
`structuredClone` into a working copy (`result`), walks the token list, and
applies each `--flag` to the working copy.  Mutation of the working copy is
modelled by explicit state passing through `MergeState`; a thrown `Error` is
modelled by the `MergeResult.thrown` constructor, which additionally records
the working state at the moment of the throw so that frame properties can be
stated about the aborted call as well (JavaScript discards that state, it is
never observable through the public interface).

Modelling notes, all marked again at the definition they concern:
* JS objects are finite own-property maps in insertion order
  (`List (String × JSVal)`); the prototype chain is not modelled.
* JS `key in arr` and `arr[key]` admit canonical decimal indices and
  `"length"`; both are modelled.  Assigning to `length` runs ECMAScript
  ArraySetLength: `ToNumber` coercion of the assigned value (exact over the
  integers; the float64 rounding corners are documented at
  `decimalLengthVal`), resize on an integral result in `[0, 2^32)`, and a
  thrown `RangeError` otherwise.
* `structuredClone` of a pure value tree is the identity; the spec's data
  model (§3) is a tree, so object aliasing inside the input is out of scope.
* The `logger` only writes to the console and never affects the computed
  configuration; it is omitted.
-/

/-- A JavaScript runtime value as handled by arglet: `undefined`, `null`,
booleans, numbers (arglet never computes with them, integers suffice for the
schemas in the spec), strings, arrays, and plain objects given as
own-property lists in insertion order. -/
inductive JSVal where
  | undefined : JSVal
  | null : JSVal
  | bool : Bool → JSVal
  | num : Int → JSVal
  | str : String → JSVal
  | arr : List JSVal → JSVal
  | obj : List (String × JSVal) → JSVal
deriving Repr

/-- JavaScript `typeof`. -/
def JSVal.typeof : JSVal → String
  | .undefined => "undefined"
  | .null => "object"
  | .bool _ => "boolean"
  | .num _ => "number"
  | .str _ => "string"
  | .arr _ => "object"
  | .obj _ => "object"

/-- Is the value the absent sentinel `undefined`? -/
def JSVal.isUndefined : JSVal → Bool
  | .undefined => true
  | _ => false

/-- `v && typeof v === "object"`: a non-null object receiver (plain object or
array).  Exactly the values whose properties the source walks. -/
def JSVal.isContainer : JSVal → Bool
  | .obj _ => true
  | .arr _ => true
  | _ => false

/-- Accumulator pass of `jsSplit`. -/
def splitCharAux (c : Char) : List Char → List Char → List String
  | [], acc => [⟨acc.reverse⟩]
  | x :: xs, acc =>
      if x = c then ⟨acc.reverse⟩ :: splitCharAux c xs []
      else splitCharAux c xs (x :: acc)

/-- JavaScript `s.split(sep)` for a one-character separator — every separator
the source splits on (`"."`, `"="`, `","`, `"|"`) is one character.  Defined
by structural recursion over the character list (core `String.splitOn` is
well-founded-recursive and does not reduce). -/
def jsSplit (s : String) (c : Char) : List String :=
  splitCharAux c s.toList []

/-- JavaScript `s.startsWith(pre)`, charwise. -/
def jsStartsWith (s pre : String) : Bool :=
  pre.toList.isPrefixOf s.toList

/-- JavaScript `s.slice(n)` for a nonnegative character offset, charwise. -/
def jsDrop (s : String) (n : Nat) : String :=
  ⟨s.toList.drop n⟩

/-- First binding of `key` in an own-property list (JS objects cannot carry
duplicate keys; the first binding is authoritative for the model). -/
def lookupField : List (String × JSVal) → String → Option JSVal
  | [], _ => none
  | (k, w) :: rest, key => if k = key then some w else lookupField rest key

/-- A canonical array index: a nonempty all-digit string with no leading zero
(except `"0"` itself) — exactly the strings that round-trip through `Nat`, as
required by the JS specification of array index properties (so `"07"`,
`"-1"`, `"1.5"` are not indices). -/
def canonIndex (key : String) : Option Nat :=
  match key.toList with
  | [] => none
  | c :: cs =>
      if (c :: cs).all (·.isDigit) ∧ (c ≠ '0' ∨ cs = []) then
        some ((c :: cs).foldl (fun a d => 10 * a + (d.toNat - 48)) 0)
      else none

/-- JS property read `current[key]` on object/array receivers, `undefined`
when absent.  Arrays expose their elements at canonical indices and their
length at `"length"`. -/
def JSVal.getProp : JSVal → String → JSVal
  | .obj fields, key =>
      match lookupField fields key with
      | some w => w
      | none => .undefined
  | .arr xs, key =>
      if key = "length" then .num xs.length
      else
        match canonIndex key with
        | some n =>
            match xs.get? n with
            | some w => w
            | none => .undefined
        | none => .undefined
  | _, _ => .undefined

/-- JS `key in current` for object/array receivers, restricted to own
properties (the prototype chain is not modelled). -/
def JSVal.hasProp : JSVal → String → Bool
  | .obj fields, key => (lookupField fields key).isSome
  | .arr xs, key =>
      key = "length" ||
        (match canonIndex key with
         | some n => n < xs.length
         | none => false)
  | _, _ => false

/-- Write the first binding of `key`, appending a new binding (insertion
order) when absent. -/
def setField : List (String × JSVal) → String → JSVal → List (String × JSVal)
  | [], key, v => [(key, v)]
  | (k, w) :: rest, key, v =>
      if k = key then (k, v) :: rest else (k, w) :: setField rest key v

/-- ECMAScript WhiteSpace and LineTerminator code points, as trimmed by
`StringToNumber`: TAB LF VT FF CR SP NBSP, the Unicode `Zs` separators, LS,
PS, and ZWNBSP. -/
def jsWhiteSpace (c : Char) : Bool :=
  let n := c.toNat
  n == 9 || n == 10 || n == 11 || n == 12 || n == 13 || n == 32 ||
    n == 0xA0 || n == 0x1680 ||
    (decide (0x2000 ≤ n) && decide (n ≤ 0x200A)) ||
    n == 0x2028 || n == 0x2029 || n == 0x202F || n == 0x205F || n == 0x3000 ||
    n == 0xFEFF

/-- Strip leading and trailing JS whitespace. -/
def trimJsWs (cs : List Char) : List Char :=
  ((cs.dropWhile jsWhiteSpace).reverse.dropWhile jsWhiteSpace).reverse

/-- Decimal value of a digit list. -/
def digitsVal (cs : List Char) : Nat :=
  cs.foldl (fun a d => 10 * a + (d.toNat - 48)) 0

/-- Value of one hexadecimal digit. -/
def hexVal (c : Char) : Nat :=
  if c.isDigit then c.toNat - 48
  else if 'a' ≤ c ∧ c ≤ 'f' then c.toNat - 87
  else c.toNat - 55

/-- Hexadecimal digit test. -/
def isHexDigitB (c : Char) : Bool :=
  c.isDigit || (decide ('a' ≤ c) && decide (c ≤ 'f')) ||
    (decide ('A' ≤ c) && decide (c ≤ 'F'))

/-- Octal digit test. -/
def isOctDigitB (c : Char) : Bool :=
  decide ('0' ≤ c) && decide (c ≤ '7')

/-- Binary digit test. -/
def isBinDigitB (c : Char) : Bool :=
  c == '0' || c == '1'

/-- Value of a digit list in a given radix. -/
def radixNum (radix : Nat) (cs : List Char) : Nat :=
  cs.foldl (fun a d => radix * a + hexVal d) 0

/-- Parse a `StrExponentPart` (possibly empty) that must consume the whole
remaining input: `[eE] [+-]? DecimalDigits`. -/
def parseExponent : List Char → Option Int
  | [] => some 0
  | c :: rest =>
      if c = 'e' ∨ c = 'E' then
        match rest with
        | '+' :: ds =>
            if ds ≠ [] ∧ ds.all (·.isDigit) then some (Int.ofNat (digitsVal ds)) else none
        | '-' :: ds =>
            if ds ≠ [] ∧ ds.all (·.isDigit) then some (-(Int.ofNat (digitsVal ds))) else none
        | ds =>
            if ds ≠ [] ∧ ds.all (·.isDigit) then some (Int.ofNat (digitsVal ds)) else none
      else none

/-- Parse an unsigned `StrUnsignedDecimalLiteral` (digits, optional fraction,
optional exponent), returning the concatenated mantissa digits, the number of
fraction digits, and the exponent; `none` when the input is not entirely such
a literal.  The literal's exact value is `mantissa * 10 ^ (exp - frac)`. -/
def parseDecimalParts (cs : List Char) : Option (Nat × Nat × Int) :=
  let intD := cs.takeWhile (·.isDigit)
  let rest₁ := cs.dropWhile (·.isDigit)
  match rest₁ with
  | '.' :: r2 =>
      let fracD := r2.takeWhile (·.isDigit)
      let rest₂ := r2.dropWhile (·.isDigit)
      if intD = [] ∧ fracD = [] then none
      else
        match parseExponent rest₂ with
        | some e => some (digitsVal (intD ++ fracD), fracD.length, e)
        | none => none
  | rest₂ =>
      if intD = [] then none
      else
        match parseExponent rest₂ with
        | some e => some (digitsVal intD, 0, e)
        | none => none

/-- ArraySetLength's check on an exact decimal value `±m * 10^(e-f)`: the new
length when the value is an integer in `[0, 2^32)` (`-0` included), `none`
(RangeError) otherwise.  The value is computed exactly over the integers;
float64 rounding of literals needing more than 53 bits of precision (and
exponent under/overflow to `0`/`∞`) is not modelled. -/
def decimalLengthVal (neg : Bool) (m f : Nat) (e : Int) : Option Nat :=
  if m = 0 then some 0
  else if neg then none
  else
    let eff : Int := e - Int.ofNat f
    if 0 ≤ eff then
      let val := m * 10 ^ eff.toNat
      if val < 4294967296 then some val else none
    else
      let d := (-eff).toNat
      if m % 10 ^ d = 0 then
        let val := m / 10 ^ d
        if val < 4294967296 then some val else none
      else none

/-- A whole-input non-decimal integer literal (`0x`/`0o`/`0b`), bounded as an
array length. -/
def radixBranch (radix : Nat) (valid : Char → Bool) (cs : List Char) : Option Nat :=
  if cs ≠ [] ∧ cs.all valid then
    if radixNum radix cs < 4294967296 then some (radixNum radix cs) else none
  else none

/-- A signed `StrDecimalLiteral` as an array length (`Infinity` is a number
but never a valid length, so it maps to `none` like `NaN`). -/
def decimalBranch (neg : Bool) (cs : List Char) : Option Nat :=
  if cs = "Infinity".toList then none
  else
    match parseDecimalParts cs with
    | some (m, f, e) => decimalLengthVal neg m f e
    | none => none

/-- JS `StringToNumber` on a trimmed string, composed with ArraySetLength's
integrality and `2^32` bound: the whitespace-trimmed input is the empty
string (value `0`), a signed decimal literal, or an unsigned `0x`/`0o`/`0b`
literal; everything else is `NaN` and therefore `none` (RangeError). -/
def strLengthVal? : List Char → Option Nat
  | [] => some 0
  | '+' :: rest => decimalBranch false rest
  | '-' :: rest => decimalBranch true rest
  | '0' :: 'x' :: rest => radixBranch 16 isHexDigitB rest
  | '0' :: 'X' :: rest => radixBranch 16 isHexDigitB rest
  | '0' :: 'o' :: rest => radixBranch 8 isOctDigitB rest
  | '0' :: 'O' :: rest => radixBranch 8 isOctDigitB rest
  | '0' :: 'b' :: rest => radixBranch 2 isBinDigitB rest
  | '0' :: 'B' :: rest => radixBranch 2 isBinDigitB rest
  | cs => decimalBranch false cs

mutual

/-- `ToString` of an element inside `Array.prototype.join`: `null` and
`undefined` become the empty string, numbers print in decimal (the model's
numbers are integers), nested arrays join recursively, and plain objects
print as `[object Object]`. -/
def elemString : JSVal → String
  | .undefined => ""
  | .null => ""
  | .bool b => if b then "true" else "false"
  | .num n => toString n
  | .str s => s
  | .arr xs => joinElems xs
  | .obj _ => "[object Object]"

/-- `Array.prototype.join` with the default `","` separator, the `ToString`
step of `ToPrimitive` on an array. -/
def joinElems : List JSVal → String
  | [] => ""
  | [x] => elemString x
  | x :: y :: rest => elemString x ++ "," ++ joinElems (y :: rest)

end

/-- ECMAScript ArraySetLength applied to an assigned value: `ToNumber` the
value (via `ToPrimitive`/`ToString` for objects and arrays), then require an
integral result in `[0, 2^32)`; `none` means the RangeError path.  Numbers in
the model are exact integers, so the float64 rounding corners of `ToNumber`
(literals needing more than 53 bits, exponent under/overflow) are outside the
model, as documented at `decimalLengthVal`. -/
def arrayLengthValue? : JSVal → Option Nat
  | .undefined => none
  | .null => some 0
  | .bool b => some (if b then 1 else 0)
  | .num n => if 0 ≤ n ∧ n < 4294967296 then some n.toNat else none
  | .str s => strLengthVal? (trimJsWs s.toList)
  | .arr xs => strLengthVal? (trimJsWs (joinElems xs).toList)
  | .obj _ => strLengthVal? (trimJsWs "[object Object]".toList)

/-- JS property write `current[key] = v`.  Plain objects store the binding.
Arrays: writing `length` runs ArraySetLength — truncating or padding with
`undefined` (JS holes) to the coerced length, or throwing `RangeError` when
the coerced value is not an integer in `[0, 2^32)` (the thrown message
records the error's name; exact message text is engine-specific); a canonical
in-range index replaces the element; an out-of-range canonical index pads and
appends (reachable only outside the `hasConfigPath` guard); a non-index,
non-length key on an array would create an expando property in JS, which the
model cannot represent and leaves unchanged (also unreachable behind the
guard).  A write to a non-container receiver throws `TypeError` in strict
mode (ES modules are strict); the walk only reaches containers, so this is
unreachable from `merge`. -/
def JSVal.setProp : JSVal → String → JSVal → Except String JSVal
  | .obj fields, key, v => .ok (.obj (setField fields key v))
  | .arr xs, key, v =>
      if key = "length" then
        match arrayLengthValue? v with
        | some n => .ok (.arr (xs.take n ++ List.replicate (n - xs.length) .undefined))
        | none => .error "RangeError: Invalid array length"
      else
        match canonIndex key with
        | some n =>
            if n < xs.length then .ok (.arr (xs.set n v))
            else .ok (.arr (xs ++ List.replicate (n - xs.length) .undefined ++ [v]))
        | none => .ok (.arr xs)
  | _, _, _ => .error "TypeError: cannot set a property of a non-object"

/-- One step of the `reduce` in `resolveValueAtPath` (src/index.ts:109-114):
`if (current && typeof current === "object" && key in current) return
current[key]; return undefined`. -/
def resolveStep (current : JSVal) (key : String) : JSVal :=
  match current with
  | .obj _ | .arr _ => if current.hasProp key then current.getProp key else .undefined
  | _ => .undefined

/-- `resolveValueAtPath` (src/index.ts:108-115): split the dotted path and
reduce from the root; `undefined` is the absent sentinel. -/
def resolveValueAtPath (root : JSVal) (path : String) : JSVal :=
  (jsSplit path '.').foldl resolveStep root

/-- `hasConfigPath` (src/index.ts:120-121): the resolved value differs from
`undefined`. -/
def hasConfigPath (root : JSVal) (path : String) : Bool :=
  !(resolveValueAtPath root path).isUndefined

/-- The segment walk of `assignValueAtPath` (src/index.ts:126-148) on the
working copy.  An empty segment aborts silently; at the final segment the
value is written unconditionally; at every earlier segment a non-object (or
null) child is replaced by a fresh empty object before descending.  The
source mutates in place; the model rebuilds the spine, writing the updated
child back with `setProp`, which yields the same tree, and the same throw:
the only fallible writes inside a replaced subtree are the shallowest
replacement write itself (which JS performs, and throws from, before
descending) and the final write, so a throw surfaces with the same message in
either order. -/
def assignGo : JSVal → List String → JSVal → Except String JSVal
  | node, [], _ => .ok node
  | node, [segment], v =>
      if segment = "" then .ok node else node.setProp segment v
  | node, segment :: rest₁ :: rest₂, v =>
      if segment = "" then .ok node
      else
        match
          assignGo
            (if (node.getProp segment).isContainer then node.getProp segment
             else .obj [])
            (rest₁ :: rest₂) v
        with
        | .ok child => node.setProp segment child
        | .error e => .error e

/-- Ghost predicate: does the walk of `assignGo` on this node and these
segments ever execute the replacement branch (src/index.ts:139-144) that
overwrites a non-object intermediate with a fresh empty object?  Mirrors
`assignGo` step for step. -/
def assignFires : JSVal → List String → Bool
  | _, [] => false
  | _, [_] => false
  | node, segment :: rest₁ :: rest₂ =>
    if segment = "" then false
    else
      if (node.getProp segment).isContainer then
        assignFires (node.getProp segment) (rest₁ :: rest₂)
      else true

/-- `ArgletOptions.arraySeparator` has the TypeScript type `"," | "|"`. -/
inductive ArraySeparator where
  | comma : ArraySeparator
  | pipe : ArraySeparator

/-- The separator as the character handed to `includes`/`split` (both
permitted separators are single characters). -/
def ArraySeparator.sepChar : ArraySeparator → Char
  | .comma => ','
  | .pipe => '|'

/-- `ArgletOptions` after defaulting (src/index.ts:82-86).  `debug` only
gates console output and never influences the computed configuration. -/
structure ArgletOptions where
  debug : Bool
  arraySeparator : ArraySeparator

/-- The state of one `arglet` call: the caller's `data` argument, the
`structuredClone` working copy `result` that all reads and writes target, and
a ghost field recording whether the intermediate-replacement branch of
`assignValueAtPath` has ever executed (for the reachability claim). -/
structure MergeState where
  data : JSVal
  result : JSVal
  replaced : Bool

/-- Outcome of a (partial) run: a normal state, or a thrown `Error` message
together with the working state at the throw (kept only so that frame
properties can be stated; JS discards it). -/
inductive MergeResult where
  | ok : MergeState → MergeResult
  | thrown : String → MergeState → MergeResult

/-- The state carried by either outcome. -/
def MergeResult.stateOf : MergeResult → MergeState
  | .ok s => s
  | .thrown _ s => s

/-- `assignValueAtPath` (src/index.ts:126-148): writes go to the working copy
`result` only (`let currentNode = result`), and a runtime `RangeError` or
`TypeError` raised by a property write propagates as a throw.  The ghost
`replaced` field accumulates whether the replacement branch fired during this
walk; on a throw the recorded state keeps the pre-assignment working copy
(the partially-mutated copy is never observable through the public
interface). -/
def assignValueAtPath (s : MergeState) (path : String) (value : JSVal) : MergeResult :=
  match assignGo s.result (jsSplit path '.') value with
  | .ok r =>
      .ok { s with
            result := r
            replaced := s.replaced || assignFires s.result (jsSplit path '.') }
  | .error e =>
      .thrown e { s with replaced := s.replaced || assignFires s.result (jsSplit path '.') }

/-- `isDisabledFlag`/`normalizedPath` (src/index.ts:162-163): strip a `no-`
prefix. -/
def normalizePath (flagName : String) : String :=
  if jsStartsWith flagName "no-" then jsDrop flagName 3 else flagName

/-- `parseFlag` (src/index.ts:153-197).  Notes: the guard
`typeof opts.arraySeparator === "string"` (line 188) is statically true for
the declared option type and is dropped; `rawValue.includes(sep)` for the
nonempty separators `","`/`"|"` holds exactly when `split(sep)` yields at
least two parts, so the model tests the split it then uses. -/
def parseFlag (opts : ArgletOptions) (s : MergeState) (flagName : String)
    (rawValue : Option String) : MergeResult :=
  if flagName = "" then .ok s
  else if hasConfigPath s.result (normalizePath flagName) then
    if jsStartsWith flagName "no-" then
      if (resolveValueAtPath s.result (normalizePath flagName)).typeof ≠ "boolean" then
        .thrown ("--no-" ++ normalizePath flagName ++ " is only valid for boolean options") s
      else
        assignValueAtPath s (normalizePath flagName) (.bool false)
    else
      match rawValue with
      | none =>
          if (resolveValueAtPath s.result (normalizePath flagName)).typeof ≠ "boolean" then
            .thrown ("--" ++ normalizePath flagName ++ " requires a value") s
          else
            assignValueAtPath s (normalizePath flagName) (.bool true)
      | some rv =>
          if 2 ≤ (jsSplit rv opts.arraySeparator.sepChar).length then
            assignValueAtPath s (normalizePath flagName)
              (.arr ((jsSplit rv opts.arraySeparator.sepChar).map .str))
          else
            assignValueAtPath s (normalizePath flagName) (.str rv)
  else .ok s

/-- The successful result of a single property write, as a total function
(unchanged receiver when the write throws; every use below is guarded). -/
def setOk (c : JSVal) (key : String) (v : JSVal) : JSVal :=
  match c.setProp key v with
  | .ok c' => c'
  | .error _ => c

/-- The value the loop takes from the immediately following token for a bare
flag: the next token when it is nonempty (JS truthiness) and not itself a
flag. -/
def lookaheadValue : List String → Option String
  | [] => none
  | nextToken :: _ =>
      if nextToken ≠ "" ∧ ¬ jsStartsWith nextToken "--" then some nextToken
      else none

/-- The argument loop (src/index.ts:200-219).  A token not starting with
`--` is skipped; a stripped token containing `=` is split on every `=` and
destructured into its first two parts (`const [flagName, flagValue]`);
otherwise the immediately following token serves as the value when it is
nonempty (JS truthiness) and does not itself start with `--` — and is *not*
consumed: the loop continues with it (`rest` is unchanged), exactly as in the
source.  A throw aborts the loop. -/
def argLoop (opts : ArgletOptions) : MergeState → List String → MergeResult
  | s, [] => .ok s
  | s, tok :: rest =>
      if jsStartsWith tok "--" then
        match jsSplit (jsDrop tok 2) '=' with
        | flagName :: flagValue :: _ =>
            match parseFlag opts s flagName (some flagValue) with
            | .ok s' => argLoop opts s' rest
            | .thrown msg st => .thrown msg st
        | _ =>
            match parseFlag opts s (jsDrop tok 2) (lookaheadValue rest) with
            | .ok s' => argLoop opts s' rest
            | .thrown msg st => .thrown msg st
      else argLoop opts s rest

/-- `structuredClone` on a pure value tree: a deep copy is the value
itself.  The working copy of the model therefore starts deep-equal to, and
structurally independent of, `data` by construction. -/
def structuredClone (v : JSVal) : JSVal := v

/-- One full call of `arglet` (src/index.ts:66-226) with explicit tokens, as
the state-level run: clone the schema into the working copy, walk the
tokens. -/
def argletRun (data : JSVal) (args : List String) (opts : ArgletOptions) : MergeResult :=
  argLoop opts { data := data, result := structuredClone data, replaced := false } args

/-- The public interface of `arglet`: the merged working copy, or the thrown
error message. -/
def arglet (data : JSVal) (args : List String) (opts : ArgletOptions) :
    Except String JSVal :=
  match argletRun data args opts with
  | .ok s => .ok s.result
  | .thrown msg _ => .error msg

/-- The flag name the loop dispatches for a `--` token: the part before the
first `=` if any, the whole stripped token otherwise. -/
def flagNameOf (tok : String) : String :=
  match jsSplit (jsDrop tok 2) '=' with
  | flagName :: _ :: _ => flagName
  | _ => jsDrop tok 2

/-- Is the value an array? -/
def isArrV : JSVal → Bool
  | .arr _ => true
  | _ => false

/-- Does a segment walk land its final write on an array's `length` property
(the one write with coercing resize-or-RangeError semantics)?  True when the
last segment is `length` and the segments before it resolve to an array. -/
def lengthTargetB (r : JSVal) (sp : List String) : Bool :=
  match sp.getLast? with
  | some k => k == "length" && isArrV (sp.dropLast.foldl resolveStep r)
  | none => false

/-- `lengthTargetB` for a dotted path. -/
def lengthWriteTarget (root : JSVal) (path : String) : Bool :=
  lengthTargetB root (jsSplit path '.')

/-- The successful result of `assignGo`, as a total function (unchanged tree
when the write throws; every use below is guarded by a proof that it does
not). -/
def writeSegs (r : JSVal) (sp : List String) (v : JSVal) : JSVal :=
  match assignGo r sp v with
  | .ok r' => r'
  | .error _ => r

/-- The name/raw-value pairs the loop hands to `parseFlag`, in order: a
non-`--` token dispatches nothing (while still serving as a lookahead
value), a stripped token containing `=` dispatches its first two split
components, and a bare token dispatches with the lookahead value. -/
def dispatches : List String → List (String × Option String)
  | [] => []
  | tok :: rest =>
      (if jsStartsWith tok "--" then
        match jsSplit (jsDrop tok 2) '=' with
        | flagName :: flagValue :: _ => [(flagName, some flagValue)]
        | _ => [(jsDrop tok 2, lookaheadValue rest)]
      else []) ++ dispatches rest

/-- The argument loop as a fold of `parseFlag` over the dispatches. -/
def dispatchFold (opts : ArgletOptions) :
    MergeState → List (String × Option String) → MergeResult
  | s, [] => .ok s
  | s, (nm, rv) :: ds =>
      match parseFlag opts s nm rv with
      | .ok s' => dispatchFold opts s' ds
      | .thrown msg st => .thrown msg st

/-- A value dispatch: a nonempty plain (non-negation) name with an explicit
or lookahead raw value. -/
def isValueD (d : String × Option String) : Bool :=
  d.1 != "" && !(jsStartsWith d.1 "no-") && d.2.isSome

/-- A toggle dispatch: a nonempty name that reads its target's type — a
negation name, or a bare flag with no raw value. -/
def isToggleD (d : String × Option String) : Bool :=
  d.1 != "" && (jsStartsWith d.1 "no-" || !d.2.isSome)

/-- The target segments of a dispatch (the normalized path, split). -/
def targetOf (d : String × Option String) : List String :=
  jsSplit (normalizePath d.1) '.'

/-- The value `parseFlag` derives from a raw value (split list or raw
string). -/
def parsedValueOf (opts : ArgletOptions) (v : String) : JSVal :=
  if 2 ≤ (jsSplit v opts.arraySeparator.sepChar).length then
    .arr ((jsSplit v opts.arraySeparator.sepChar).map .str)
  else .str v

/-- Is the resolved value a boolean or the absent sentinel (the two target
states in which a toggle dispatch does not throw)? -/
def boolOrUndefined : JSVal → Bool
  | .bool _ => true
  | .undefined => true
  | _ => false

/-- Reflexive prefix test on segment lists. -/
def segPrefixOf : List String → List String → Bool
  | [], _ => true
  | _ :: _, [] => false
  | a :: as, b :: bs => a == b && segPrefixOf as bs

/-- The effect of one dispatch on the working copy along the non-throwing
path — a proof-side characterization, not a source function: under the
`GoodDispatches` conditions the characterization lemma shows `parseFlag`
never throws and computes exactly this. -/
def applyD (opts : ArgletOptions) (r : JSVal) (d : String × Option String) : JSVal :=
  if d.1 = "" then r
  else if ((targetOf d).foldl resolveStep r).isUndefined then r
  else if jsStartsWith d.1 "no-" then writeSegs r (targetOf d) (.bool false)
  else
    match d.2 with
    | none => writeSegs r (targetOf d) (.bool true)
    | some v => writeSegs r (targetOf d) (parsedValueOf opts v)

/-- The value a dispatch writes when it fires: state-independent — `false`
for a negation flag, `true` for a bare flag, the split-or-raw parse for an
explicit value. -/
def dispatchValue (opts : ArgletOptions) (d : String × Option String) : JSVal :=
  if jsStartsWith d.1 "no-" then .bool false
  else
    match d.2 with
    | none => .bool true
    | some v => parsedValueOf opts v

/-- Per-dispatch conditions, checked at a state: a value dispatch has
empty-segment-free target segments and does not land on an array's `length`;
a toggle dispatch has empty-segment-free target segments resolving to a
boolean or `undefined`. -/
def GoodD (r : JSVal) (d : String × Option String) : Prop :=
  (isValueD d = true →
    (targetOf d).contains "" = false ∧ lengthTargetB r (targetOf d) = false)
  ∧ (isToggleD d = true →
    (targetOf d).contains "" = false ∧
      boolOrUndefined ((targetOf d).foldl resolveStep r) = true)

/-- Pairwise target discipline between two dispatches: value targets are
equal or mutually non-prefix, and a value target is never a (reflexive)
prefix of a toggle target. -/
def DRel (d e : String × Option String) : Prop :=
  (isValueD d = true → isValueD e = true →
    targetOf d = targetOf e ∨
      (segPrefixOf (targetOf d) (targetOf e) = false ∧
        segPrefixOf (targetOf e) (targetOf d) = false))
  ∧ (isValueD d = true → isToggleD e = true →
    segPrefixOf (targetOf d) (targetOf e) = false)
  ∧ (isToggleD d = true → isValueD e = true →
    segPrefixOf (targetOf e) (targetOf d) = false)

/-- The conditions, checked against the schema, under which the amended
idempotence claim is proved: every dispatch is individually good and the
pairwise target discipline holds along the list. -/
def GoodDispatches (r : JSVal) (D : List (String × Option String)) : Prop :=
  (∀ d ∈ D, GoodD r d) ∧ List.Pairwise DRel D

instance (r : JSVal) (d : String × Option String) : Decidable (GoodD r d) :=
  inferInstanceAs (Decidable
    ((isValueD d = true →
      (targetOf d).contains "" = false ∧ lengthTargetB r (targetOf d) = false)
    ∧ (isToggleD d = true →
      (targetOf d).contains "" = false ∧
        boolOrUndefined ((targetOf d).foldl resolveStep r) = true)))

instance (d e : String × Option String) : Decidable (DRel d e) :=
  inferInstanceAs (Decidable
    ((isValueD d = true → isValueD e = true →
      targetOf d = targetOf e ∨
        (segPrefixOf (targetOf d) (targetOf e) = false ∧
          segPrefixOf (targetOf e) (targetOf d) = false))
    ∧ (isValueD d = true → isToggleD e = true →
      segPrefixOf (targetOf d) (targetOf e) = false)
    ∧ (isToggleD d = true → isValueD e = true →
      segPrefixOf (targetOf e) (targetOf d) = false)))

instance (r : JSVal) (D : List (String × Option String)) :
    Decidable (GoodDispatches r D) :=
  inferInstanceAs (Decidable ((∀ d ∈ D, GoodD r d) ∧ List.Pairwise DRel D))

/-- Fold of the per-dispatch effect over a dispatch list. -/
def applyFold (opts : ArgletOptions) : JSVal → List (String × Option String) → JSVal
  | r, [] => r
  | r, d :: ds => applyFold opts (applyD opts r d) ds

example : arglet (.obj [("verbose", .bool false)]) ["--verbose"] ⟨false, .comma⟩
    = .ok (.obj [("verbose", .bool true)]) := by rfl

example : arglet (.obj [("cache", .bool true)]) ["--no-cache"] ⟨false, .comma⟩
    = .ok (.obj [("cache", .bool false)]) := by rfl

example : arglet (.obj [("ids", .arr [])]) ["--ids=1,2,3"] ⟨false, .comma⟩
    = .ok (.obj [("ids", .arr [.str "1", .str "2", .str "3"])]) := by rfl

example : arglet (.obj [("ids", .arr [])]) ["--ids=1|2|3"] ⟨false, .pipe⟩
    = .ok (.obj [("ids", .arr [.str "1", .str "2", .str "3"])]) := by rfl

example : arglet (.obj [("age", .num 23)]) ["--age"] ⟨false, .comma⟩
    = .error "--age requires a value" := by rfl

example : arglet (.obj [("name", .str "x")]) ["--no-name"] ⟨false, .comma⟩
    = .error "--no-name is only valid for boolean options" := by rfl

example : arglet (.obj [("a", .num 1)]) ["--unknown"] ⟨false, .comma⟩
    = .ok (.obj [("a", .num 1)]) := by rfl

example :
    arglet (.obj [("server", .obj [("host", .str "localhost"), ("port", .str "3000")])])
      ["--server.host=0.0.0.0", "--server.port=8080"] ⟨false, .comma⟩
    = .ok (.obj [("server", .obj [("host", .str "0.0.0.0"), ("port", .str "8080")])]) := by rfl

example : arglet (.obj [("name", .str "")]) ["--name=a", "--name=b"] ⟨false, .comma⟩
    = .ok (.obj [("name", .str "b")]) := by rfl

example : arglet (.obj [("name", .str "sriman"), ("age", .num 23), ("debug", .bool false)])
      ["--name", "tene", "--age", "25", "--debug"] ⟨false, .comma⟩
    = .ok (.obj [("name", .str "tene"), ("age", .str "25"), ("debug", .bool true)]) := by rfl

/-! ### Frame and reachability lemmas -/

theorem foldl_resolveStep_undefined (segs : List String) :
    segs.foldl resolveStep .undefined = .undefined := by
  induction segs with
  | nil => rfl
  | cons s rest ih => exact ih

theorem resolveStep_not_container {v : JSVal} (h : v.isContainer = false) (k : String) :
    resolveStep v k = .undefined := by
  cases v <;> first | rfl | simp [JSVal.isContainer] at h

theorem resolveStep_cases (node : JSVal) (k : String) :
    resolveStep node k = .undefined ∨
      (node.hasProp k = true ∧ node.isContainer = true ∧
        resolveStep node k = node.getProp k) := by
  cases node with
  | obj fields =>
      cases hp : (JSVal.obj fields).hasProp k with
      | false => exact Or.inl (by simp [resolveStep, hp])
      | true => exact Or.inr ⟨rfl, rfl, by simp [resolveStep, hp]⟩
  | arr xs =>
      cases hp : (JSVal.arr xs).hasProp k with
      | false => exact Or.inl (by simp [resolveStep, hp])
      | true => exact Or.inr ⟨rfl, rfl, by simp [resolveStep, hp]⟩
  | undefined => exact Or.inl rfl
  | null => exact Or.inl rfl
  | bool b => exact Or.inl rfl
  | num n => exact Or.inl rfl
  | str s => exact Or.inl rfl

theorem assignFires_false_of_resolve :
    ∀ (segs : List String) (node : JSVal),
      (segs.foldl resolveStep node).isUndefined = false → assignFires node segs = false
  | [], _, _ => rfl
  | [_], _, _ => rfl
  | seg :: r1 :: r2, node, h => by
      by_cases hseg : seg = ""
      · simp [assignFires, hseg]
      · have hfold : ((r1 :: r2).foldl resolveStep (resolveStep node seg)).isUndefined = false := h
        rcases resolveStep_cases node seg with hu | ⟨_, _, he⟩
        · rw [hu, foldl_resolveStep_undefined] at hfold
          exact absurd hfold (by decide)
        · rw [he] at hfold
          have hcc : (node.getProp seg).isContainer = true := by
            cases hcase : (node.getProp seg).isContainer with
            | false =>
                have h1 : resolveStep (node.getProp seg) r1 = .undefined :=
                  resolveStep_not_container hcase r1
                have h2 : (r2.foldl resolveStep (resolveStep (node.getProp seg) r1)).isUndefined
                    = false := hfold
                rw [h1, foldl_resolveStep_undefined] at h2
                exact absurd h2 (by decide)
            | true => rfl
          have htail := assignFires_false_of_resolve (r1 :: r2) (node.getProp seg) hfold
          simp [assignFires, hseg, hcc, htail]

theorem assignValueAtPath_stateOf_data (s : MergeState) (p : String) (v : JSVal) :
    ((assignValueAtPath s p v).stateOf).data = s.data := by
  unfold assignValueAtPath
  split <;> rfl

theorem assignValueAtPath_stateOf_replaced (s : MergeState) (p : String) (v : JSVal)
    (h : s.replaced = false) (hcp : hasConfigPath s.result p = true) :
    ((assignValueAtPath s p v).stateOf).replaced = false := by
  have hu : (resolveValueAtPath s.result p).isUndefined = false := by
    simpa [hasConfigPath] using hcp
  have hf : assignFires s.result (jsSplit p '.') = false :=
    assignFires_false_of_resolve _ _ hu
  unfold assignValueAtPath
  split <;> simp [MergeResult.stateOf, h, hf]

theorem parseFlag_shape (opts : ArgletOptions) (s : MergeState) (nm : String)
    (rv : Option String) :
    parseFlag opts s nm rv = .ok s ∨
      (∃ m, parseFlag opts s nm rv = .thrown m s) ∨
      (∃ v, hasConfigPath s.result (normalizePath nm) = true ∧
        parseFlag opts s nm rv = assignValueAtPath s (normalizePath nm) v) := by
  unfold parseFlag
  split
  · exact Or.inl rfl
  · split
    · rename_i hcp
      split
      · split
        · exact Or.inr (Or.inl ⟨_, rfl⟩)
        · exact Or.inr (Or.inr ⟨_, hcp, rfl⟩)
      · split
        · split
          · exact Or.inr (Or.inl ⟨_, rfl⟩)
          · exact Or.inr (Or.inr ⟨_, hcp, rfl⟩)
        · split
          · exact Or.inr (Or.inr ⟨_, hcp, rfl⟩)
          · exact Or.inr (Or.inr ⟨_, hcp, rfl⟩)
    · exact Or.inl rfl

theorem parseFlag_stateOf_data (opts : ArgletOptions) (s : MergeState) (nm : String)
    (rv : Option String) : ((parseFlag opts s nm rv).stateOf).data = s.data := by
  rcases parseFlag_shape opts s nm rv with h | ⟨m, h⟩ | ⟨v, _, h⟩ <;> rw [h]
  · rfl
  · rfl
  · exact assignValueAtPath_stateOf_data s _ v

theorem parseFlag_stateOf_replaced (opts : ArgletOptions) (s : MergeState) (nm : String)
    (rv : Option String) (h : s.replaced = false) :
    ((parseFlag opts s nm rv).stateOf).replaced = false := by
  rcases parseFlag_shape opts s nm rv with hp | ⟨m, hp⟩ | ⟨v, hcp, hp⟩ <;> rw [hp]
  · exact h
  · exact h
  · exact assignValueAtPath_stateOf_replaced s _ v h hcp

theorem parseFlag_eq_ok_data {opts : ArgletOptions} {s : MergeState} {nm : String}
    {rv : Option String} {s' : MergeState} (hpf : parseFlag opts s nm rv = .ok s') :
    s'.data = s.data := by
  have hd := parseFlag_stateOf_data opts s nm rv
  rw [hpf] at hd
  exact hd

theorem parseFlag_eq_thrown_data {opts : ArgletOptions} {s : MergeState} {nm : String}
    {rv : Option String} {m : String} {st : MergeState}
    (hpf : parseFlag opts s nm rv = .thrown m st) : st.data = s.data := by
  have hd := parseFlag_stateOf_data opts s nm rv
  rw [hpf] at hd
  exact hd

theorem parseFlag_eq_ok_replaced {opts : ArgletOptions} {s : MergeState} {nm : String}
    {rv : Option String} {s' : MergeState} (h : s.replaced = false)
    (hpf : parseFlag opts s nm rv = .ok s') : s'.replaced = false := by
  have hd := parseFlag_stateOf_replaced opts s nm rv h
  rw [hpf] at hd
  exact hd

theorem parseFlag_eq_thrown_replaced {opts : ArgletOptions} {s : MergeState} {nm : String}
    {rv : Option String} {m : String} {st : MergeState} (h : s.replaced = false)
    (hpf : parseFlag opts s nm rv = .thrown m st) : st.replaced = false := by
  have hd := parseFlag_stateOf_replaced opts s nm rv h
  rw [hpf] at hd
  exact hd

theorem argLoop_nil (opts : ArgletOptions) (s : MergeState) : argLoop opts s [] = .ok s := rfl

theorem argLoop_cons (opts : ArgletOptions) (s : MergeState) (tok : String)
    (rest : List String) :
    argLoop opts s (tok :: rest) =
      if jsStartsWith tok "--" then
        match jsSplit (jsDrop tok 2) '=' with
        | flagName :: flagValue :: _ =>
            match parseFlag opts s flagName (some flagValue) with
            | .ok s' => argLoop opts s' rest
            | .thrown msg st => .thrown msg st
        | _ =>
            match parseFlag opts s (jsDrop tok 2) (lookaheadValue rest) with
            | .ok s' => argLoop opts s' rest
            | .thrown msg st => .thrown msg st
      else argLoop opts s rest := rfl

theorem argLoop_stateOf_data (opts : ArgletOptions) :
    ∀ (args : List String) (s : MergeState), ((argLoop opts s args).stateOf).data = s.data
  | [], _ => rfl
  | tok :: rest, s => by
      rw [argLoop_cons]
      split
      · split
        · rename_i nm v ps heq
          split
          · rename_i s' hpf
            rw [argLoop_stateOf_data opts rest s']
            exact parseFlag_eq_ok_data hpf
          · rename_i m st hpf
            exact parseFlag_eq_thrown_data hpf
        · split
          · rename_i s' hpf
            rw [argLoop_stateOf_data opts rest s']
            exact parseFlag_eq_ok_data hpf
          · rename_i m st hpf
            exact parseFlag_eq_thrown_data hpf
      · exact argLoop_stateOf_data opts rest s

theorem argLoop_stateOf_replaced (opts : ArgletOptions) :
    ∀ (args : List String) (s : MergeState), s.replaced = false →
      ((argLoop opts s args).stateOf).replaced = false
  | [], _, h => h
  | tok :: rest, s, h => by
      rw [argLoop_cons]
      split
      · split
        · rename_i nm v ps heq
          split
          · rename_i s' hpf
            exact argLoop_stateOf_replaced opts rest s' (parseFlag_eq_ok_replaced h hpf)
          · rename_i m st hpf
            exact parseFlag_eq_thrown_replaced h hpf
        · split
          · rename_i s' hpf
            exact argLoop_stateOf_replaced opts rest s' (parseFlag_eq_ok_replaced h hpf)
          · rename_i m st hpf
            exact parseFlag_eq_thrown_replaced h hpf
      · exact argLoop_stateOf_replaced opts rest s h

/-- C1: for every schema object, token list, and options, `merge` never
mutates its schema argument: the `data` component of the final state — on
normal return and at a throw alike — is exactly the input schema; every flag
write went to the `structuredClone` working copy `result` only. -/
theorem c1_merge_never_mutates_schema (data : JSVal) (args : List String)
    (opts : ArgletOptions) : ((argletRun data args opts).stateOf).data = data :=
  argLoop_stateOf_data opts args _

/-- C9: in every call to `merge`, the branch of `assignValueAtPath` that
replaces a non-object (or null) intermediate node with a fresh empty mapping
never executes: assignment is only reached behind `hasConfigPath`, and a
resolvable path has containers at every non-final segment, so the ghost
`replaced` flag is still `false` in the final state of every run. -/
theorem c9_replacement_branch_never_fires (data : JSVal) (args : List String)
    (opts : ArgletOptions) : ((argletRun data args opts).stateOf).replaced = false :=
  argLoop_stateOf_replaced opts args _ rfl

/-! ### Per-flag behavior -/

theorem parseFlag_skip (opts : ArgletOptions) (s : MergeState) (f : String)
    (rv : Option String) (h : hasConfigPath s.result (normalizePath f) = false) :
    parseFlag opts s f rv = .ok s := by
  by_cases h0 : f = ""
  · simp [parseFlag, h0]
  · simp [parseFlag, h0, h]

/-- C2: a flag token dispatched with no attached or following value, whose
name does not start with `no-` and whose path exists in the working copy,
assigns `true` when the existing value is a boolean and otherwise throws the
error stating that the flag requires a value. -/
theorem c2_bare_flag_boolean_or_throw (opts : ArgletOptions) (s : MergeState) (f : String)
    (h0 : f ≠ "") (h1 : jsStartsWith f "no-" = false)
    (h2 : (resolveValueAtPath s.result f).isUndefined = false) :
    ((resolveValueAtPath s.result f).typeof = "boolean" →
      parseFlag opts s f none = assignValueAtPath s f (.bool true))
    ∧ ((resolveValueAtPath s.result f).typeof ≠ "boolean" →
      parseFlag opts s f none = .thrown ("--" ++ f ++ " requires a value") s) := by
  have hn : normalizePath f = f := by simp [normalizePath, h1]
  have hc : hasConfigPath s.result f = true := by simp [hasConfigPath, h2]
  constructor
  · intro ht
    simp [parseFlag, h0, hn, hc, h1, ht]
  · intro ht
    simp [parseFlag, h0, hn, hc, h1, ht]

theorem c2_witness :
    parseFlag ⟨false, .comma⟩
        ⟨.obj [("verbose", .bool false)], .obj [("verbose", .bool false)], false⟩
        "verbose" none
      = assignValueAtPath
          ⟨.obj [("verbose", .bool false)], .obj [("verbose", .bool false)], false⟩
          "verbose" (.bool true)
    ∧ arglet (.obj [("verbose", .bool false)]) ["--verbose"] ⟨false, .comma⟩
      = .ok (.obj [("verbose", .bool true)])
    ∧ arglet (.obj [("age", .num 23)]) ["--age"] ⟨false, .comma⟩
      = .error "--age requires a value" :=
  ⟨(c2_bare_flag_boolean_or_throw ⟨false, .comma⟩
      ⟨.obj [("verbose", .bool false)], .obj [("verbose", .bool false)], false⟩
      "verbose" (by decide) (by decide) (by decide)).1 (by decide),
   rfl, rfl⟩

/-- C3: a negation flag `--no-X` whose stripped target path exists in the
working copy assigns `false` when the existing value is a boolean and
otherwise throws the error stating that the negation flag is only valid for
boolean options; any attached raw value is irrelevant to this branch. -/
theorem c3_negation_boolean_or_throw (opts : ArgletOptions) (s : MergeState) (f : String)
    (rv : Option String) (h1 : jsStartsWith f "no-" = true)
    (h2 : (resolveValueAtPath s.result (jsDrop f 3)).isUndefined = false) :
    ((resolveValueAtPath s.result (jsDrop f 3)).typeof = "boolean" →
      parseFlag opts s f rv = assignValueAtPath s (jsDrop f 3) (.bool false))
    ∧ ((resolveValueAtPath s.result (jsDrop f 3)).typeof ≠ "boolean" →
      parseFlag opts s f rv =
        .thrown ("--no-" ++ jsDrop f 3 ++ " is only valid for boolean options") s) := by
  have h0 : f ≠ "" := by
    rintro rfl
    simp [jsStartsWith] at h1
  have hn : normalizePath f = jsDrop f 3 := by simp [normalizePath, h1]
  have hc : hasConfigPath s.result (jsDrop f 3) = true := by simp [hasConfigPath, h2]
  constructor
  · intro ht
    simp [parseFlag, h0, hn, hc, h1, ht]
  · intro ht
    simp [parseFlag, h0, hn, hc, h1, ht]

theorem c3_witness :
    parseFlag ⟨false, .comma⟩
        ⟨.obj [("cache", .bool true)], .obj [("cache", .bool true)], false⟩
        "no-cache" none
      = assignValueAtPath
          ⟨.obj [("cache", .bool true)], .obj [("cache", .bool true)], false⟩
          (jsDrop "no-cache" 3) (.bool false)
    ∧ arglet (.obj [("cache", .bool true)]) ["--no-cache"] ⟨false, .comma⟩
      = .ok (.obj [("cache", .bool false)])
    ∧ arglet (.obj [("name", .str "x")]) ["--no-name"] ⟨false, .comma⟩
      = .error "--no-name is only valid for boolean options" :=
  ⟨(c3_negation_boolean_or_throw ⟨false, .comma⟩
      ⟨.obj [("cache", .bool true)], .obj [("cache", .bool true)], false⟩
      "no-cache" none (by decide) (by decide)).1 (by decide),
   rfl, rfl⟩

/-- C4: a `--` token whose target path (after stripping any `no-` prefix)
does not exist in the working copy is silently ignored: no throw, no change
to the state, and the loop proceeds with exactly the remaining tokens. -/
theorem c4_unknown_flag_ignored (opts : ArgletOptions) (s : MergeState) (tok : String)
    (rest : List String) (h1 : jsStartsWith tok "--" = true)
    (h2 : hasConfigPath s.result (normalizePath (flagNameOf tok)) = false) :
    argLoop opts s (tok :: rest) = argLoop opts s rest := by
  rw [argLoop_cons, if_pos h1]
  have h2' : hasConfigPath s.result
      (normalizePath
        (match jsSplit (jsDrop tok 2) '=' with
         | flagName :: _ :: _ => flagName
         | _ => jsDrop tok 2)) = false := by
    rw [flagNameOf] at h2
    exact h2
  rcases hsplit : jsSplit (jsDrop tok 2) '=' with _ | ⟨nm, _ | ⟨v, ps⟩⟩ <;>
    rw [hsplit] at h2' <;> dsimp only at h2' ⊢
  · rw [parseFlag_skip opts s (jsDrop tok 2) (lookaheadValue rest) h2']
  · rw [parseFlag_skip opts s (jsDrop tok 2) (lookaheadValue rest) h2']
  · rw [parseFlag_skip opts s nm (some v) h2']

theorem c4_witness :
    argLoop ⟨false, .comma⟩ ⟨.obj [("a", .num 1)], .obj [("a", .num 1)], false⟩
        ["--unknown"]
      = argLoop ⟨false, .comma⟩ ⟨.obj [("a", .num 1)], .obj [("a", .num 1)], false⟩ []
    ∧ arglet (.obj [("a", .num 1)]) ["--unknown"] ⟨false, .comma⟩
      = .ok (.obj [("a", .num 1)]) :=
  ⟨c4_unknown_flag_ignored ⟨false, .comma⟩
      ⟨.obj [("a", .num 1)], .obj [("a", .num 1)], false⟩
      "--unknown" [] (by decide) (by decide),
   rfl⟩

/-- C10: a path that resolves to `undefined` — whether the key is entirely
absent or present with a stored `undefined` value — makes every flag
targeting it (bare, negation, or with a value) a silent no-op: `parseFlag`
returns the state unchanged and never throws, because path existence is
tested as the resolved value being different from `undefined`. -/
theorem c10_stored_undefined_like_absent (opts : ArgletOptions) (s : MergeState)
    (f : String) (rv : Option String)
    (h : (resolveValueAtPath s.result (normalizePath f)).isUndefined = true) :
    parseFlag opts s f rv = .ok s := by
  apply parseFlag_skip
  simp [hasConfigPath, h]

theorem c10_witness :
    lookupField [("k", JSVal.undefined)] "k" = some .undefined
    ∧ parseFlag ⟨false, .comma⟩ ⟨.obj [("k", .undefined)], .obj [("k", .undefined)], false⟩
        "k" none
      = .ok ⟨.obj [("k", .undefined)], .obj [("k", .undefined)], false⟩
    ∧ parseFlag ⟨false, .comma⟩ ⟨.obj [("k", .undefined)], .obj [("k", .undefined)], false⟩
        "no-k" none
      = .ok ⟨.obj [("k", .undefined)], .obj [("k", .undefined)], false⟩
    ∧ parseFlag ⟨false, .comma⟩ ⟨.obj [("k", .undefined)], .obj [("k", .undefined)], false⟩
        "k" (some "7")
      = .ok ⟨.obj [("k", .undefined)], .obj [("k", .undefined)], false⟩ :=
  ⟨rfl,
   c10_stored_undefined_like_absent ⟨false, .comma⟩
     ⟨.obj [("k", .undefined)], .obj [("k", .undefined)], false⟩ "k" none (by decide),
   c10_stored_undefined_like_absent ⟨false, .comma⟩
     ⟨.obj [("k", .undefined)], .obj [("k", .undefined)], false⟩ "no-k" none (by decide),
   c10_stored_undefined_like_absent ⟨false, .comma⟩
     ⟨.obj [("k", .undefined)], .obj [("k", .undefined)], false⟩ "k" (some "7") (by decide)⟩

/-- C6 counterexample: the tokenizer does *not* keep everything after the
first `=`: `--k=a=b` against schema `{k: ""}` stores `"a"` (the destructured
second component of `split("=")`), not `"a=b"`. -/
theorem c6_counterexample :
    arglet (.obj [("k", .str "")]) ["--k=a=b"] ⟨false, .comma⟩
      = .ok (.obj [("k", .str "a")])
    ∧ arglet (.obj [("k", .str "")]) ["--k=a=b"] ⟨false, .comma⟩
      ≠ .ok (.obj [("k", .str "a=b")]) := by
  refine ⟨rfl, fun h => ?_⟩
  rw [show arglet (.obj [("k", .str "")]) ["--k=a=b"] ⟨false, .comma⟩
      = Except.ok (JSVal.obj [("k", JSVal.str "a")]) from rfl] at h
  injection h with h1
  injection h1 with h2
  injection h2 with h3 h4
  injection h3 with h5 h6
  injection h6 with h7
  exact absurd h7 (by decide)

/-- C6 amended: a `--` token containing `=` is split on *every* `=`; the
dispatched flag name is the first component and the dispatched value the
second component only — text after a second `=` is discarded. -/
theorem c6_amended_split_all_equals (opts : ArgletOptions) (s : MergeState) (tok : String)
    (rest : List String) (nm v : String) (ps : List String)
    (h1 : jsStartsWith tok "--" = true)
    (h2 : jsSplit (jsDrop tok 2) '=' = nm :: v :: ps) :
    argLoop opts s (tok :: rest) =
      match parseFlag opts s nm (some v) with
      | .ok s' => argLoop opts s' rest
      | .thrown msg st => .thrown msg st := by
  rw [argLoop_cons, if_pos h1, h2]

theorem c6_amended_witness :
    jsSplit (jsDrop "--k=a=b" 2) '=' = ["k", "a", "b"]
    ∧ argLoop ⟨false, .comma⟩ ⟨.obj [("k", .str "")], .obj [("k", .str "")], false⟩
        ["--k=a=b"]
      = match parseFlag ⟨false, .comma⟩ ⟨.obj [("k", .str "")], .obj [("k", .str "")], false⟩
            "k" (some "a") with
        | .ok s' => argLoop ⟨false, .comma⟩ s' []
        | .thrown msg st => .thrown msg st :=
  ⟨by decide,
   c6_amended_split_all_equals ⟨false, .comma⟩
     ⟨.obj [("k", .str "")], .obj [("k", .str "")], false⟩
     "--k=a=b" [] "k" "a" ["b"] (by decide) (by decide)⟩

/-- C7 counterexample: a trailing-equals token `--age=` against the
non-boolean `{age: 23}` does *not* throw — the empty string after `=` counts
as a supplied value and is assigned — while the bare `--age` does throw. -/
theorem c7_counterexample :
    arglet (.obj [("age", .num 23)]) ["--age="] ⟨false, .comma⟩
      = .ok (.obj [("age", .str "")])
    ∧ arglet (.obj [("age", .num 23)]) ["--age"] ⟨false, .comma⟩
      = .error "--age requires a value" := ⟨rfl, rfl⟩

/-! ### Idempotence for plain explicit-value flags -/

theorem isUndefined_iff {w : JSVal} : w.isUndefined = true ↔ w = .undefined := by
  cases w <;> simp [JSVal.isUndefined]

theorem lookupField_setField_self (fs : List (String × JSVal)) (k : String) (v : JSVal) :
    lookupField (setField fs k v) k = some v := by
  induction fs with
  | nil => simp [setField, lookupField]
  | cons kv rest ih =>
      obtain ⟨k', w⟩ := kv
      by_cases h : k' = k
      · simp [setField, h, lookupField]
      · simp [setField, h, lookupField, ih]

theorem lookupField_setField_ne (fs : List (String × JSVal)) (k k' : String) (v : JSVal)
    (h : k' ≠ k) : lookupField (setField fs k v) k' = lookupField fs k' := by
  have h' : k ≠ k' := Ne.symm h
  induction fs with
  | nil => simp [setField, lookupField, h']
  | cons kv rest ih =>
      obtain ⟨k0, w⟩ := kv
      by_cases h0 : k0 = k
      · subst h0
        simp [setField, lookupField, h']
      · simp [setField, h0, lookupField, ih]

theorem setField_self (fs : List (String × JSVal)) (k : String) (v : JSVal)
    (h : lookupField fs k = some v) : setField fs k v = fs := by
  induction fs with
  | nil => simp [lookupField] at h
  | cons kv rest ih =>
      obtain ⟨k0, w⟩ := kv
      by_cases h0 : k0 = k
      · simp [lookupField, h0] at h
        simp [setField, h0, h]
      · simp [lookupField, h0] at h
        simp [setField, h0, ih h]

/-- C8 counterexample: idempotence fails on the code.  With `{a: true}` and
`T = ["--a", "--a=x"]`, the first merge returns `{a: "x"}` normally, but
re-applying the same tokens to that result throws (the bare `--a` now sees a
non-boolean), so `merge(merge(S,T),T)` is not deep-equal to `merge(S,T)`. -/
theorem c8_counterexample :
    arglet (.obj [("a", .bool true)]) ["--a", "--a=x"] ⟨false, .comma⟩
      = .ok (.obj [("a", .str "x")])
    ∧ arglet (.obj [("a", .str "x")]) ["--a", "--a=x"] ⟨false, .comma⟩
      = .error "--a requires a value"
    ∧ (Except.error "--a requires a value" : Except String JSVal)
      ≠ .ok (.obj [("a", .str "x")]) :=
  ⟨rfl, rfl, fun h => Except.noConfusion h⟩

/-! ### Guarded writes never throw off the length path -/

theorem resolveStep_ne_undefined {r : JSVal} {a : String}
    (h : (resolveStep r a).isUndefined = false) :
    r.isContainer = true ∧ r.hasProp a = true ∧ resolveStep r a = r.getProp a := by
  rcases resolveStep_cases r a with he | ⟨hp, hc, he⟩
  · rw [he] at h
    exact absurd h (by decide)
  · exact ⟨hc, hp, he⟩

theorem resolveSegs_cons_guard {r : JSVal} {a : String} {sp' : List String}
    (h : (((a :: sp').foldl resolveStep r)).isUndefined = false) :
    ((sp'.foldl resolveStep (r.getProp a))).isUndefined = false
      ∧ r.isContainer = true ∧ r.hasProp a = true ∧ resolveStep r a = r.getProp a := by
  have hstep : (resolveStep r a).isUndefined = false := by
    cases hs : (resolveStep r a).isUndefined with
    | false => rfl
    | true =>
        have he : resolveStep r a = .undefined := isUndefined_iff.mp hs
        have : ((a :: sp').foldl resolveStep r) = .undefined := by
          show (sp'.foldl resolveStep (resolveStep r a)) = .undefined
          rw [he]
          exact foldl_resolveStep_undefined sp'
        rw [this] at h
        exact absurd h (by decide)
  obtain ⟨hc, hp, he⟩ := resolveStep_ne_undefined hstep
  refine ⟨?_, hc, hp, he⟩
  have : ((a :: sp').foldl resolveStep r) = (sp'.foldl resolveStep (r.getProp a)) := by
    show (sp'.foldl resolveStep (resolveStep r a)) = _
    rw [he]
  rwa [this] at h

theorem setProp_ok_of_hasProp {r : JSVal} {a : String} (hc : r.isContainer = true)
    (hp : r.hasProp a = true) (hnl : ¬(isArrV r = true ∧ a = "length")) (v : JSVal) :
    ∃ r', r.setProp a v = .ok r' := by
  cases r with
  | obj fs => exact ⟨_, rfl⟩
  | arr xs =>
      by_cases hL : a = "length"
      · exact absurd ⟨rfl, hL⟩ hnl
      · cases hidx : canonIndex a with
        | none =>
            simp [JSVal.hasProp, hL, hidx] at hp
        | some n =>
            simp [JSVal.hasProp, hL, hidx] at hp
            refine ⟨.arr (xs.set n v), ?_⟩
            simp [JSVal.setProp, hL, hidx, hp]
  | undefined => simp [JSVal.isContainer] at hc
  | null => simp [JSVal.isContainer] at hc
  | bool b => simp [JSVal.isContainer] at hc
  | num n => simp [JSVal.isContainer] at hc
  | str t => simp [JSVal.isContainer] at hc

theorem lengthTargetB_cons {r : JSVal} {a b : String} {sp' : List String}
    (hstep : resolveStep r a = r.getProp a) :
    lengthTargetB r (a :: b :: sp') = lengthTargetB (r.getProp a) (b :: sp') := by
  show (match (a :: b :: sp').getLast? with
        | some k => k == "length" && isArrV ((a :: b :: sp').dropLast.foldl resolveStep r)
        | none => false) = _
  rw [List.getLast?_cons_cons]
  have hdl : (a :: b :: sp').dropLast = a :: (b :: sp').dropLast := rfl
  rw [hdl]
  show (match (b :: sp').getLast? with
        | some k => k == "length" && isArrV ((b :: sp').dropLast.foldl resolveStep (resolveStep r a))
        | none => false) = _
  rw [hstep]
  rfl

theorem assignGo_ok : ∀ (sp : List String) (r v : JSVal),
    ((sp.foldl resolveStep r)).isUndefined = false →
    lengthTargetB r sp = false →
    assignGo r sp v = .ok (writeSegs r sp v)
  | [], r, v, _, _ => rfl
  | [a], r, v, hg, hnl => by
      by_cases ha : a = ""
      · simp [assignGo, ha, writeSegs]
      · obtain ⟨hc, hp, _⟩ :=
          resolveStep_ne_undefined (show (resolveStep r a).isUndefined = false from hg)
        have hnl' : ¬(isArrV r = true ∧ a = "length") := by
          rintro ⟨h1, h2⟩
          rw [lengthTargetB] at hnl
          simp [h2, h1] at hnl
        obtain ⟨r', hr⟩ := setProp_ok_of_hasProp hc hp hnl' v
        simp [assignGo, ha, hr, writeSegs]
  | a :: b :: sp', r, v, hg, hnl => by
      by_cases ha : a = ""
      · simp [assignGo, ha, writeSegs]
      · obtain ⟨hchild, hc, hp, hstep⟩ := resolveSegs_cons_guard hg
        have hcc : (r.getProp a).isContainer = true :=
          (resolveSegs_cons_guard hchild).2.1
        have hnl' : lengthTargetB (r.getProp a) (b :: sp') = false := by
          rw [← lengthTargetB_cons hstep]
          exact hnl
        have hcr := assignGo_ok (b :: sp') (r.getProp a) v hchild hnl'
        have hnl2 : ¬(isArrV r = true ∧ a = "length") := by
          rintro ⟨h1, h2⟩
          cases r <;> simp [isArrV] at h1
          rw [h2] at hcc
          simp [JSVal.getProp, JSVal.isContainer] at hcc
        obtain ⟨r', hr⟩ :=
          setProp_ok_of_hasProp hc hp hnl2 (writeSegs (r.getProp a) (b :: sp') v)
        have hgo : assignGo r (a :: b :: sp') v = .ok r' := by
          show (if a = "" then Except.ok r
                else
                  match
                    assignGo
                      (if (r.getProp a).isContainer then r.getProp a else .obj [])
                      (b :: sp') v
                  with
                  | .ok child => r.setProp a child
                  | .error e => .error e) = .ok r'
          rw [if_neg ha, if_pos hcc, hcr]
          exact hr
        simp [writeSegs, hgo]

theorem assignValueAtPath_ok (s : MergeState) (p : String) (v : JSVal)
    (hg : (resolveValueAtPath s.result p).isUndefined = false)
    (hnl : lengthWriteTarget s.result p = false) :
    assignValueAtPath s p v =
      .ok { s with
            result := writeSegs s.result (jsSplit p '.') v
            replaced := s.replaced || assignFires s.result (jsSplit p '.') } := by
  have hgo := assignGo_ok (jsSplit p '.') s.result v hg hnl
  simp [assignValueAtPath, hgo]

/-- C5 counterexample: the claim fails at an array's `length` property.  The
path `ids.length` exists in the working copy and `x` is a raw value without
the separator, yet merge does not assign the string `x`: the JS length-set
coercion yields `NaN` and the call throws RangeError. -/
theorem c5_counterexample :
    hasConfigPath (.obj [("ids", .arr [.str "a", .str "b"])]) "ids.length" = true
    ∧ (jsSplit "x" ',').length = 1
    ∧ arglet (.obj [("ids", .arr [.str "a", .str "b"])]) ["--ids.length=x"] ⟨false, .comma⟩
      = .error "RangeError: Invalid array length" :=
  ⟨rfl, rfl, rfl⟩

/-- C5 amended: a plain flag with an existing target path and a supplied raw
value performs the JS property assignment of the split list (when the raw
value contains the configured separator, i.e. splits into two or more parts,
regardless of the existing value's type) and of the raw string unchanged
otherwise; whenever that write does not land on an array's `length` property
the assignment returns normally with the value stored, while at an array's
`length` JavaScript's length-set semantics (coerce, resize or RangeError)
applies instead. -/
theorem c5_amended_raw_value_split_or_string (opts : ArgletOptions) (s : MergeState)
    (f rv : String) (h0 : f ≠ "") (h1 : jsStartsWith f "no-" = false)
    (h2 : (resolveValueAtPath s.result f).isUndefined = false) :
    (2 ≤ (jsSplit rv opts.arraySeparator.sepChar).length →
      parseFlag opts s f (some rv)
        = assignValueAtPath s f
            (.arr ((jsSplit rv opts.arraySeparator.sepChar).map .str)))
    ∧ ((jsSplit rv opts.arraySeparator.sepChar).length < 2 →
      parseFlag opts s f (some rv) = assignValueAtPath s f (.str rv))
    ∧ (lengthWriteTarget s.result f = false →
      ∀ v : JSVal, assignValueAtPath s f v =
        .ok { s with
              result := writeSegs s.result (jsSplit f '.') v
              replaced := s.replaced || assignFires s.result (jsSplit f '.') }) := by
  have hn : normalizePath f = f := by simp [normalizePath, h1]
  have hc : hasConfigPath s.result f = true := by simp [hasConfigPath, h2]
  refine ⟨fun ht => ?_, fun ht => ?_, fun hnl v => ?_⟩
  · simp [parseFlag, h0, hn, hc, h1, ht]
  · simp [parseFlag, h0, hn, hc, h1, Nat.not_le.mpr ht]
  · exact assignValueAtPath_ok s f v h2 hnl

theorem c5_witness :
    parseFlag ⟨false, .comma⟩ ⟨.obj [("ids", .arr [])], .obj [("ids", .arr [])], false⟩
        "ids" (some "1,2,3")
      = assignValueAtPath ⟨.obj [("ids", .arr [])], .obj [("ids", .arr [])], false⟩
          "ids" (.arr ((jsSplit "1,2,3" ',').map .str))
    ∧ assignValueAtPath ⟨.obj [("ids", .arr [])], .obj [("ids", .arr [])], false⟩
        "ids" (.arr [.str "1", .str "2", .str "3"])
      = .ok ⟨.obj [("ids", .arr [])],
             writeSegs (.obj [("ids", .arr [])]) (jsSplit "ids" '.')
               (.arr [.str "1", .str "2", .str "3"]),
             false || assignFires (.obj [("ids", .arr [])]) (jsSplit "ids" '.')⟩
    ∧ parseFlag ⟨false, .comma⟩
        ⟨.obj [("port", .str "3000")], .obj [("port", .str "3000")], false⟩
        "port" (some "8080")
      = assignValueAtPath ⟨.obj [("port", .str "3000")], .obj [("port", .str "3000")], false⟩
          "port" (.str "8080")
    ∧ arglet (.obj [("ids", .arr [])]) ["--ids=1,2,3"] ⟨false, .comma⟩
      = .ok (.obj [("ids", .arr [.str "1", .str "2", .str "3"])])
    ∧ arglet (.obj [("ids", .arr [])]) ["--ids=1|2|3"] ⟨false, .pipe⟩
      = .ok (.obj [("ids", .arr [.str "1", .str "2", .str "3"])]) :=
  ⟨(c5_amended_raw_value_split_or_string ⟨false, .comma⟩
      ⟨.obj [("ids", .arr [])], .obj [("ids", .arr [])], false⟩
      "ids" "1,2,3" (by decide) (by decide) (by decide)).1 (by decide),
   (c5_amended_raw_value_split_or_string ⟨false, .comma⟩
      ⟨.obj [("ids", .arr [])], .obj [("ids", .arr [])], false⟩
      "ids" "1,2,3" (by decide) (by decide) (by decide)).2.2 (by decide)
     (.arr [.str "1", .str "2", .str "3"]),
   (c5_amended_raw_value_split_or_string ⟨false, .comma⟩
      ⟨.obj [("port", .str "3000")], .obj [("port", .str "3000")], false⟩
      "port" "8080" (by decide) (by decide) (by decide)).2.1 (by decide),
   rfl, rfl⟩

/-- C7 amended: for a non-boolean existing target path X, the trailing-equals
form dispatches the empty string as an explicit value, so merge performs the
JS assignment of `""` at X instead of throwing MissingRequiredValue; whenever
X is not an array's `length` property that assignment returns normally with
`""` stored (at an array's `length` the empty string coerces to `0` and
truncates the array).  Only the bare form with no usable value throws the
requires-a-value error. -/
theorem c7_amended_trailing_equals_assigns_empty (opts : ArgletOptions) (s : MergeState)
    (f : String) (h0 : f ≠ "") (h1 : jsStartsWith f "no-" = false)
    (h2 : (resolveValueAtPath s.result f).isUndefined = false)
    (h3 : (resolveValueAtPath s.result f).typeof ≠ "boolean") :
    parseFlag opts s f (some "") = assignValueAtPath s f (.str "")
    ∧ (lengthWriteTarget s.result f = false →
      assignValueAtPath s f (.str "") =
        .ok { s with
              result := writeSegs s.result (jsSplit f '.') (.str "")
              replaced := s.replaced || assignFires s.result (jsSplit f '.') })
    ∧ parseFlag opts s f none = .thrown ("--" ++ f ++ " requires a value") s := by
  have hn : normalizePath f = f := by simp [normalizePath, h1]
  have hc : hasConfigPath s.result f = true := by simp [hasConfigPath, h2]
  refine ⟨?_, fun hnl => ?_, ?_⟩
  · have hsplit : jsSplit "" opts.arraySeparator.sepChar = [""] := rfl
    simp [parseFlag, h0, hn, hc, h1, hsplit]
  · exact assignValueAtPath_ok s f (.str "") h2 hnl
  · simp [parseFlag, h0, hn, hc, h1, h3]

theorem c7_amended_witness :
    parseFlag ⟨false, .comma⟩ ⟨.obj [("age", .num 23)], .obj [("age", .num 23)], false⟩
        "age" (some "")
      = assignValueAtPath ⟨.obj [("age", .num 23)], .obj [("age", .num 23)], false⟩
          "age" (.str "")
    ∧ assignValueAtPath ⟨.obj [("age", .num 23)], .obj [("age", .num 23)], false⟩
        "age" (.str "")
      = .ok ⟨.obj [("age", .num 23)],
             writeSegs (.obj [("age", .num 23)]) (jsSplit "age" '.') (.str ""),
             false || assignFires (.obj [("age", .num 23)]) (jsSplit "age" '.')⟩
    ∧ parseFlag ⟨false, .comma⟩ ⟨.obj [("age", .num 23)], .obj [("age", .num 23)], false⟩
        "age" none
      = .thrown ("--" ++ "age" ++ " requires a value")
          ⟨.obj [("age", .num 23)], .obj [("age", .num 23)], false⟩
    ∧ arglet (.obj [("age", .num 23)]) ["--age="] ⟨false, .comma⟩
      = .ok (.obj [("age", .str "")])
    ∧ arglet (.obj [("ids", .arr [.str "a"])]) ["--ids.length="] ⟨false, .comma⟩
      = .ok (.obj [("ids", .arr [])]) :=
  ⟨(c7_amended_trailing_equals_assigns_empty ⟨false, .comma⟩
      ⟨.obj [("age", .num 23)], .obj [("age", .num 23)], false⟩
      "age" (by decide) (by decide) (by decide) (by decide)).1,
   (c7_amended_trailing_equals_assigns_empty ⟨false, .comma⟩
      ⟨.obj [("age", .num 23)], .obj [("age", .num 23)], false⟩
      "age" (by decide) (by decide) (by decide) (by decide)).2.1 (by decide),
   (c7_amended_trailing_equals_assigns_empty ⟨false, .comma⟩
      ⟨.obj [("age", .num 23)], .obj [("age", .num 23)], false⟩
      "age" (by decide) (by decide) (by decide) (by decide)).2.2,
   rfl, rfl⟩

/-! ### The loop as a fold over dispatches, and `parseFlag` as `applyD` -/

theorem resolve_num_of_lengthTargetB {r : JSVal} {sp : List String}
    (h : lengthTargetB r sp = true) :
    ∃ len : Nat, sp.foldl resolveStep r = .num len := by
  rcases List.eq_nil_or_concat sp with rfl | ⟨ys, k, rfl⟩
  · exact absurd h (by simp [lengthTargetB])
  · simp only [List.concat_eq_append] at h ⊢
    rw [lengthTargetB, List.getLast?_concat, List.dropLast_concat] at h
    simp only [Bool.and_eq_true, beq_iff_eq] at h
    obtain ⟨hk, ha⟩ := h
    cases hres : ys.foldl resolveStep r with
    | undefined => rw [hres] at ha; simp [isArrV] at ha
    | null => rw [hres] at ha; simp [isArrV] at ha
    | bool b => rw [hres] at ha; simp [isArrV] at ha
    | num n => rw [hres] at ha; simp [isArrV] at ha
    | str t => rw [hres] at ha; simp [isArrV] at ha
    | obj fs => rw [hres] at ha; simp [isArrV] at ha
    | arr xs =>
        refine ⟨xs.length, ?_⟩
        rw [List.foldl_append, hres, hk]
        show resolveStep (.arr xs) "length" = _
        simp [resolveStep, JSVal.hasProp, JSVal.getProp]

theorem lengthTargetB_false_of_bool {r : JSVal} {sp : List String} {b : Bool}
    (h : sp.foldl resolveStep r = .bool b) : lengthTargetB r sp = false := by
  cases hl : lengthTargetB r sp with
  | false => rfl
  | true =>
      obtain ⟨len, hres⟩ := resolve_num_of_lengthTargetB hl
      rw [h] at hres
      exact JSVal.noConfusion hres

theorem parseFlag_char (opts : ArgletOptions) (s : MergeState) (d : String × Option String)
    (hval : isValueD d = true → lengthTargetB s.result (targetOf d) = false)
    (htog : isToggleD d = true →
      boolOrUndefined ((targetOf d).foldl resolveStep s.result) = true) :
    parseFlag opts s d.1 d.2 = .ok { s with result := applyD opts s.result d } := by
  obtain ⟨nm, rv⟩ := d
  by_cases h0 : nm = ""
  · subst h0
    simp [parseFlag, applyD]
  · cases hcp : hasConfigPath s.result (normalizePath nm) with
    | false =>
        have hu : ((targetOf (nm, rv)).foldl resolveStep s.result).isUndefined = true := by
          simpa [hasConfigPath, resolveValueAtPath, targetOf] using hcp
        rw [parseFlag_skip opts s nm rv hcp]
        simp [applyD, h0, hu]
    | true =>
        have hu : ((targetOf (nm, rv)).foldl resolveStep s.result).isUndefined = false := by
          simpa [hasConfigPath, resolveValueAtPath, targetOf] using hcp
        have hu' : (resolveValueAtPath s.result (normalizePath nm)).isUndefined = false := hu
        have hfires : assignFires s.result (jsSplit (normalizePath nm) '.') = false :=
          assignFires_false_of_resolve _ _ hu'
        have hu2 : ((jsSplit (normalizePath nm) '.').foldl resolveStep s.result).isUndefined
            = false := hu
        by_cases hno : jsStartsWith nm "no-" = true
        · have htg : isToggleD (nm, rv) = true := by
            simp [isToggleD, h0, hno]
          have hbu := htog htg
          obtain ⟨b, hb⟩ : ∃ b, (targetOf (nm, rv)).foldl resolveStep s.result = .bool b := by
            cases hres : (targetOf (nm, rv)).foldl resolveStep s.result with
            | bool b => exact ⟨b, rfl⟩
            | undefined => rw [hres] at hu; exact absurd hu (by decide)
            | null => rw [hres] at hbu; simp [boolOrUndefined] at hbu
            | num n => rw [hres] at hbu; simp [boolOrUndefined] at hbu
            | str t => rw [hres] at hbu; simp [boolOrUndefined] at hbu
            | arr xs => rw [hres] at hbu; simp [boolOrUndefined] at hbu
            | obj fs => rw [hres] at hbu; simp [boolOrUndefined] at hbu
          have hnl : lengthTargetB s.result (targetOf (nm, rv)) = false :=
            lengthTargetB_false_of_bool hb
          have htypeof : (resolveValueAtPath s.result (normalizePath nm)).typeof = "boolean" := by
            show ((targetOf (nm, rv)).foldl resolveStep s.result).typeof = "boolean"
            rw [hb]
            rfl
          have hpf : parseFlag opts s nm rv
              = assignValueAtPath s (normalizePath nm) (.bool false) := by
            simp [parseFlag, h0, hcp, hno, htypeof]
          have hap : applyD opts s.result (nm, rv)
              = writeSegs s.result (jsSplit (normalizePath nm) '.') (.bool false) := by
            simp [applyD, h0, hu2, hno, targetOf]
          rw [hpf, assignValueAtPath_ok s (normalizePath nm) (.bool false) hu' hnl, hap, hfires]
          simp
        · cases rv with
          | none =>
              have htg : isToggleD (nm, none) = true := by
                simp [isToggleD, h0]
              have hbu := htog htg
              obtain ⟨b, hb⟩ :
                  ∃ b, (targetOf (nm, none)).foldl resolveStep s.result = .bool b := by
                cases hres : (targetOf (nm, (none : Option String))).foldl
                    resolveStep s.result with
                | bool b => exact ⟨b, rfl⟩
                | undefined => rw [hres] at hu; exact absurd hu (by decide)
                | null => rw [hres] at hbu; simp [boolOrUndefined] at hbu
                | num n => rw [hres] at hbu; simp [boolOrUndefined] at hbu
                | str t => rw [hres] at hbu; simp [boolOrUndefined] at hbu
                | arr xs => rw [hres] at hbu; simp [boolOrUndefined] at hbu
                | obj fs => rw [hres] at hbu; simp [boolOrUndefined] at hbu
              have hnl : lengthTargetB s.result (targetOf (nm, (none : Option String)))
                  = false := lengthTargetB_false_of_bool hb
              have htypeof :
                  (resolveValueAtPath s.result (normalizePath nm)).typeof = "boolean" := by
                show ((targetOf (nm, (none : Option String))).foldl
                    resolveStep s.result).typeof = "boolean"
                rw [hb]
                rfl
              have hpf : parseFlag opts s nm none
                  = assignValueAtPath s (normalizePath nm) (.bool true) := by
                simp [parseFlag, h0, hcp, hno, htypeof]
              have hap : applyD opts s.result (nm, none)
                  = writeSegs s.result (jsSplit (normalizePath nm) '.') (.bool true) := by
                simp [applyD, h0, hu2, hno, targetOf]
              rw [hpf, assignValueAtPath_ok s (normalizePath nm) (.bool true) hu' hnl,
                hap, hfires]
              simp
          | some v =>
              have hvd : isValueD (nm, some v) = true := by
                simp [isValueD, h0, hno]
              have hnl := hval hvd
              by_cases hsep : 2 ≤ (jsSplit v opts.arraySeparator.sepChar).length
              · have hpf : parseFlag opts s nm (some v)
                    = assignValueAtPath s (normalizePath nm)
                        (.arr ((jsSplit v opts.arraySeparator.sepChar).map .str)) := by
                  simp [parseFlag, h0, hcp, hno, hsep]
                have hap : applyD opts s.result (nm, some v)
                    = writeSegs s.result (jsSplit (normalizePath nm) '.')
                        (.arr ((jsSplit v opts.arraySeparator.sepChar).map .str)) := by
                  simp [applyD, h0, hu2, hno, targetOf, parsedValueOf, hsep]
                rw [hpf, assignValueAtPath_ok s (normalizePath nm) _ hu' hnl, hap, hfires]
                simp
              · have hpf : parseFlag opts s nm (some v)
                    = assignValueAtPath s (normalizePath nm) (.str v) := by
                  simp [parseFlag, h0, hcp, hno, hsep]
                have hap : applyD opts s.result (nm, some v)
                    = writeSegs s.result (jsSplit (normalizePath nm) '.') (.str v) := by
                  simp [applyD, h0, hu2, hno, targetOf, parsedValueOf, hsep]
                rw [hpf, assignValueAtPath_ok s (normalizePath nm) _ hu' hnl, hap, hfires]
                simp

theorem argLoop_eq_dispatchFold (opts : ArgletOptions) :
    ∀ (args : List String) (s : MergeState),
      argLoop opts s args = dispatchFold opts s (dispatches args)
  | [], _ => rfl
  | tok :: rest, s => by
      rw [argLoop_cons]
      by_cases hsw : jsStartsWith tok "--" = true
      · rw [if_pos hsw]
        have hd : dispatches (tok :: rest) =
            (match jsSplit (jsDrop tok 2) '=' with
             | flagName :: flagValue :: _ => [(flagName, some flagValue)]
             | _ => [(jsDrop tok 2, lookaheadValue rest)]) ++ dispatches rest := by
          simp [dispatches, hsw]
        rw [hd]
        rcases hsp : jsSplit (jsDrop tok 2) '=' with _ | ⟨a, _ | ⟨b, tl⟩⟩
        · show (match parseFlag opts s (jsDrop tok 2) (lookaheadValue rest) with
                | .ok s' => argLoop opts s' rest
                | .thrown msg st => .thrown msg st)
              = dispatchFold opts s ((jsDrop tok 2, lookaheadValue rest) :: dispatches rest)
          cases hpf : parseFlag opts s (jsDrop tok 2) (lookaheadValue rest) with
          | ok s' =>
              show argLoop opts s' rest
                  = dispatchFold opts s ((jsDrop tok 2, lookaheadValue rest) :: dispatches rest)
              rw [show dispatchFold opts s ((jsDrop tok 2, lookaheadValue rest) :: dispatches rest)
                  = match parseFlag opts s (jsDrop tok 2) (lookaheadValue rest) with
                    | .ok s' => dispatchFold opts s' (dispatches rest)
                    | .thrown msg st => .thrown msg st from rfl, hpf]
              exact argLoop_eq_dispatchFold opts rest s'
          | thrown msg st =>
              rw [show dispatchFold opts s ((jsDrop tok 2, lookaheadValue rest) :: dispatches rest)
                  = match parseFlag opts s (jsDrop tok 2) (lookaheadValue rest) with
                    | .ok s' => dispatchFold opts s' (dispatches rest)
                    | .thrown msg st => .thrown msg st from rfl, hpf]
        · show (match parseFlag opts s (jsDrop tok 2) (lookaheadValue rest) with
                | .ok s' => argLoop opts s' rest
                | .thrown msg st => .thrown msg st)
              = dispatchFold opts s ((jsDrop tok 2, lookaheadValue rest) :: dispatches rest)
          cases hpf : parseFlag opts s (jsDrop tok 2) (lookaheadValue rest) with
          | ok s' =>
              show argLoop opts s' rest
                  = dispatchFold opts s ((jsDrop tok 2, lookaheadValue rest) :: dispatches rest)
              rw [show dispatchFold opts s ((jsDrop tok 2, lookaheadValue rest) :: dispatches rest)
                  = match parseFlag opts s (jsDrop tok 2) (lookaheadValue rest) with
                    | .ok s' => dispatchFold opts s' (dispatches rest)
                    | .thrown msg st => .thrown msg st from rfl, hpf]
              exact argLoop_eq_dispatchFold opts rest s'
          | thrown msg st =>
              rw [show dispatchFold opts s ((jsDrop tok 2, lookaheadValue rest) :: dispatches rest)
                  = match parseFlag opts s (jsDrop tok 2) (lookaheadValue rest) with
                    | .ok s' => dispatchFold opts s' (dispatches rest)
                    | .thrown msg st => .thrown msg st from rfl, hpf]
        · show (match parseFlag opts s a (some b) with
                | .ok s' => argLoop opts s' rest
                | .thrown msg st => .thrown msg st)
              = dispatchFold opts s ((a, some b) :: dispatches rest)
          cases hpf : parseFlag opts s a (some b) with
          | ok s' =>
              show argLoop opts s' rest
                  = dispatchFold opts s ((a, some b) :: dispatches rest)
              rw [show dispatchFold opts s ((a, some b) :: dispatches rest)
                  = match parseFlag opts s a (some b) with
                    | .ok s' => dispatchFold opts s' (dispatches rest)
                    | .thrown msg st => .thrown msg st from rfl, hpf]
              exact argLoop_eq_dispatchFold opts rest s'
          | thrown msg st =>
              rw [show dispatchFold opts s ((a, some b) :: dispatches rest)
                  = match parseFlag opts s a (some b) with
                    | .ok s' => dispatchFold opts s' (dispatches rest)
                    | .thrown msg st => .thrown msg st from rfl, hpf]
      · rw [if_neg hsw]
        have hd : dispatches (tok :: rest) = dispatches rest := by
          simp [dispatches, hsw]
        rw [hd]
        exact argLoop_eq_dispatchFold opts rest s

/-! ### Segment-prefix facts -/

theorem segPrefixOf_refl : ∀ (l : List String), segPrefixOf l l = true
  | [] => rfl
  | a :: as => by simp [segPrefixOf, segPrefixOf_refl as]

theorem segPrefixOf_append : ∀ {p q : List String}, segPrefixOf p q = true →
    ∃ u, q = p ++ u
  | [], q, _ => ⟨q, rfl⟩
  | a :: p', b :: q', h => by
      simp only [segPrefixOf, Bool.and_eq_true, beq_iff_eq] at h
      obtain ⟨rfl, h2⟩ := h
      obtain ⟨u, rfl⟩ := segPrefixOf_append h2
      exact ⟨u, rfl⟩

theorem segPrefixOf_of_append : ∀ (p u : List String), segPrefixOf p (p ++ u) = true
  | [], _ => rfl
  | a :: p', u => by simp [segPrefixOf, segPrefixOf_of_append p' u]

theorem segPrefixOf_length : ∀ {p q : List String}, segPrefixOf p q = true →
    p.length ≤ q.length := by
  intro p q h
  obtain ⟨u, rfl⟩ := segPrefixOf_append h
  simp

theorem segPrefixOf_dropLast_self {q : List String} (hq : q ≠ []) :
    segPrefixOf q q.dropLast = false := by
  cases h : segPrefixOf q q.dropLast with
  | false => rfl
  | true =>
      have hl := segPrefixOf_length h
      rw [List.length_dropLast] at hl
      have : 0 < q.length := List.length_pos.mpr hq
      omega

theorem segPrefixOf_dropLast {p q : List String} (hq : q ≠ [])
    (h : segPrefixOf p q.dropLast = true) :
    segPrefixOf p q = true ∧ p ≠ q := by
  obtain ⟨u, hu⟩ := segPrefixOf_append h
  have hql : q.dropLast ++ [q.getLast hq] = q := List.dropLast_append_getLast hq
  constructor
  · rw [← hql, hu, List.append_assoc]
    exact segPrefixOf_of_append p _
  · intro hpq
    have h1 : q.length ≤ q.dropLast.length := by
      rw [hpq] at h
      exact segPrefixOf_length h
    rw [List.length_dropLast] at h1
    have : 0 < q.length := List.length_pos.mpr hq
    omega

theorem segPrefixOf_strict {p q : List String} (h : segPrefixOf p q = true) (hne : p ≠ q) :
    ∃ u, u ≠ [] ∧ q = p ++ u := by
  obtain ⟨u, rfl⟩ := segPrefixOf_append h
  refine ⟨u, ?_, rfl⟩
  rintro rfl
  exact hne (by simp)

/-! ### Canonical indices are injective -/

theorem digit_toNat_le {c : Char} (h : c.isDigit = true) :
    48 ≤ c.toNat ∧ c.toNat ≤ 57 := by
  simpa [Char.isDigit] using h

theorem char_toNat_inj {c d : Char} (h : c.toNat = d.toNat) : c = d := by
  rw [← Char.ofNat_toNat c, ← Char.ofNat_toNat d, h]

theorem digitsVal_cons_general : ∀ (ds : List Char) (a : Nat),
    ds.foldl (fun a d => 10 * a + (d.toNat - 48)) a
      = a * 10 ^ ds.length + digitsVal ds
  | [], a => by simp [digitsVal]
  | d :: ds, a => by
      show ds.foldl _ (10 * a + (d.toNat - 48)) = _
      rw [digitsVal_cons_general ds (10 * a + (d.toNat - 48))]
      rw [show digitsVal (d :: ds)
          = ds.foldl (fun a d => 10 * a + (d.toNat - 48)) (10 * 0 + (d.toNat - 48)) from rfl]
      rw [digitsVal_cons_general ds (10 * 0 + (d.toNat - 48))]
      rw [List.length_cons, pow_succ]
      ring

theorem digitsVal_cons (d : Char) (ds : List Char) :
    digitsVal (d :: ds) = (d.toNat - 48) * 10 ^ ds.length + digitsVal ds := by
  rw [show digitsVal (d :: ds)
      = ds.foldl (fun a d => 10 * a + (d.toNat - 48)) (10 * 0 + (d.toNat - 48)) from rfl]
  rw [digitsVal_cons_general ds (10 * 0 + (d.toNat - 48))]
  ring

theorem digitsVal_lt : ∀ {ds : List Char}, ds.all (·.isDigit) = true →
    digitsVal ds < 10 ^ ds.length
  | [], _ => by simp [digitsVal]
  | d :: ds, h => by
      simp only [List.all_cons, Bool.and_eq_true] at h
      obtain ⟨hd, hds⟩ := h
      have h9 : d.toNat - 48 ≤ 9 := by
        have := digit_toNat_le hd
        omega
      have ih := digitsVal_lt hds
      rw [digitsVal_cons, List.length_cons, pow_succ]
      calc (d.toNat - 48) * 10 ^ ds.length + digitsVal ds
          < (d.toNat - 48) * 10 ^ ds.length + 10 ^ ds.length := by omega
        _ = ((d.toNat - 48) + 1) * 10 ^ ds.length := by ring
        _ ≤ 10 * 10 ^ ds.length := by
            have : (d.toNat - 48) + 1 ≤ 10 := by omega
            exact Nat.mul_le_mul_right _ this
        _ = 10 ^ ds.length * 10 := by ring

theorem digitsVal_ge {d : Char} (ds : List Char) (hd : d.isDigit = true) (h0 : d ≠ '0') :
    10 ^ ds.length ≤ digitsVal (d :: ds) := by
  have hb := digit_toNat_le hd
  have h1 : 1 ≤ d.toNat - 48 := by
    rcases Nat.eq_or_lt_of_le hb.1 with he | hlt
    · have h48 : d.toNat = 48 := he.symm
      exact absurd (char_toNat_inj (by rw [h48]; rfl)) h0
    · omega
  rw [digitsVal_cons]
  calc 10 ^ ds.length = 1 * 10 ^ ds.length := by ring
    _ ≤ (d.toNat - 48) * 10 ^ ds.length := Nat.mul_le_mul_right _ h1
    _ ≤ (d.toNat - 48) * 10 ^ ds.length + digitsVal ds := Nat.le_add_right _ _

theorem digits_inj : ∀ (as bs : List Char), as.length = bs.length →
    as.all (·.isDigit) = true → bs.all (·.isDigit) = true →
    digitsVal as = digitsVal bs → as = bs
  | [], [], _, _, _, _ => rfl
  | a :: as, b :: bs, hlen, ha, hb, hv => by
      simp only [List.all_cons, Bool.and_eq_true] at ha hb
      obtain ⟨ha1, ha2⟩ := ha
      obtain ⟨hb1, hb2⟩ := hb
      have hlen' : as.length = bs.length := by simpa using hlen
      rw [digitsVal_cons, digitsVal_cons, hlen'] at hv
      have hlta := digitsVal_lt ha2
      have hltb := digitsVal_lt hb2
      rw [hlen'] at hlta
      set P := 10 ^ bs.length with hP
      have hPpos : 0 < P := Nat.pos_pow_of_pos _ (by omega)
      have hxy : a.toNat - 48 = b.toNat - 48 := by
        have h1 : ((a.toNat - 48) * P + digitsVal as) / P = a.toNat - 48 := by
          rw [Nat.mul_comm, Nat.mul_add_div hPpos, Nat.div_eq_of_lt hlta]
          omega
        have h2 : ((b.toNat - 48) * P + digitsVal bs) / P = b.toNat - 48 := by
          rw [Nat.mul_comm, Nat.mul_add_div hPpos, Nat.div_eq_of_lt hltb]
          omega
        rw [← h1, ← h2, hv]
      have hab : a = b := by
        have hba := digit_toNat_le ha1
        have hbb := digit_toNat_le hb1
        exact char_toNat_inj (by omega)
      have hrest : digitsVal as = digitsVal bs := by
        rw [hxy] at hv
        omega
      rw [hab, digits_inj as bs hlen' ha2 hb2 hrest]

theorem canonIndex_cons (c : Char) (cs : List Char) (a : String) (h : a.toList = c :: cs) :
    canonIndex a =
      if ((c :: cs).all (·.isDigit)) ∧ (c ≠ '0' ∨ cs = []) then
        some ((c :: cs).foldl (fun acc d => 10 * acc + (d.toNat - 48)) 0)
      else none := by
  rw [canonIndex, h]

theorem canonIndex_inj : ∀ {a b : String} {n : Nat}, canonIndex a = some n →
    canonIndex b = some n → a = b := by
  intro a b n ha hb
  rcases hla : a.toList with _ | ⟨ca, cas⟩
  · rw [canonIndex, hla] at ha
    simp at ha
  rcases hlb : b.toList with _ | ⟨cb, cbs⟩
  · rw [canonIndex, hlb] at hb
    simp at hb
  rw [canonIndex_cons ca cas a hla] at ha
  rw [canonIndex_cons cb cbs b hlb] at hb
  split at ha
  case isFalse => exact absurd ha (by simp)
  case isTrue hca =>
  split at hb
  case isFalse => exact absurd hb (by simp)
  case isTrue hcb =>
  obtain ⟨hda, hza⟩ := hca
  obtain ⟨hdb, hzb⟩ := hcb
  have hva : digitsVal (ca :: cas) = n := by
    simpa [digitsVal] using ha
  have hvb : digitsVal (cb :: cbs) = n := by
    simpa [digitsVal] using hb
  have hlen : (ca :: cas).length = (cb :: cbs).length := by
    rcases Nat.lt_trichotomy (ca :: cas).length (cb :: cbs).length with hlt | heq | hgt
    · exfalso
      have h1 : digitsVal (ca :: cas) < 10 ^ (ca :: cas).length := digitsVal_lt hda
      have hcb0 : cb ≠ '0' := by
        rcases hzb with h | h
        · exact h
        · exfalso
          rw [h] at hlt
          simp only [List.length_cons, List.length_nil] at hlt
          omega
      have h2 : 10 ^ cbs.length ≤ digitsVal (cb :: cbs) := digitsVal_ge cbs (by
          simp only [List.all_cons, Bool.and_eq_true] at hdb
          exact hdb.1) hcb0
      have h3 : (ca :: cas).length ≤ cbs.length := by
        simp only [List.length_cons] at hlt ⊢
        omega
      have h4 : (10 : Nat) ^ (ca :: cas).length ≤ 10 ^ cbs.length :=
        Nat.pow_le_pow_right (by omega) h3
      have hchain : digitsVal (cb :: cbs) < digitsVal (cb :: cbs) := by
        calc digitsVal (cb :: cbs) = n := hvb
          _ = digitsVal (ca :: cas) := hva.symm
          _ < 10 ^ (ca :: cas).length := h1
          _ ≤ 10 ^ cbs.length := h4
          _ ≤ digitsVal (cb :: cbs) := h2
      exact absurd hchain (lt_irrefl _)
    · exact heq
    · exfalso
      have h1 : digitsVal (cb :: cbs) < 10 ^ (cb :: cbs).length := digitsVal_lt hdb
      have hca0 : ca ≠ '0' := by
        rcases hza with h | h
        · exact h
        · exfalso
          rw [h] at hgt
          simp only [List.length_cons, List.length_nil] at hgt
          omega
      have h2 : 10 ^ cas.length ≤ digitsVal (ca :: cas) := digitsVal_ge cas (by
          simp only [List.all_cons, Bool.and_eq_true] at hda
          exact hda.1) hca0
      have h3 : (cb :: cbs).length ≤ cas.length := by
        simp only [List.length_cons] at hgt ⊢
        omega
      have h4 : (10 : Nat) ^ (cb :: cbs).length ≤ 10 ^ cas.length :=
        Nat.pow_le_pow_right (by omega) h3
      have hchain : digitsVal (ca :: cas) < digitsVal (ca :: cas) := by
        calc digitsVal (ca :: cas) = n := hva
          _ = digitsVal (cb :: cbs) := hvb.symm
          _ < 10 ^ (cb :: cbs).length := h1
          _ ≤ 10 ^ cas.length := h4
          _ ≤ digitsVal (ca :: cas) := h2
      exact absurd hchain (lt_irrefl _)
  have hlists : ca :: cas = cb :: cbs :=
    digits_inj _ _ hlen hda hdb (by omega)
  apply String.ext
  rw [show a.data = a.toList from rfl, show b.data = b.toList from rfl, hla, hlb, hlists]

/-! ### Single-level write lemmas -/

theorem RS0 (c : JSVal) (k : String) :
    resolveStep c k =
      if c.isContainer = true then
        (if c.hasProp k = true then c.getProp k else .undefined)
      else .undefined := by
  cases c <;> rfl

theorem resolveStep_congr {x y : JSVal} (k : String)
    (hc : x.isContainer = y.isContainer) (hp : x.hasProp k = y.hasProp k)
    (hg : x.getProp k = y.getProp k) : resolveStep x k = resolveStep y k := by
  rw [RS0, RS0, hc, hp, hg]

theorem list_set_get_self : ∀ (xs : List JSVal) (n : Nat) (w : JSVal),
    xs.get? n = some w → xs.set n w = xs
  | [], _, _, h => by simp at h
  | x :: xs, 0, w, h => by
      rw [List.get?_cons_zero] at h
      obtain rfl := Option.some.inj h
      rfl
  | x :: xs, n + 1, w, h => by
      rw [List.get?_cons_succ] at h
      show x :: xs.set n w = x :: xs
      rw [list_set_get_self xs n w h]

theorem setField_setField (fs : List (String × JSVal)) (k : String) (v w : JSVal) :
    setField (setField fs k v) k w = setField fs k w := by
  induction fs with
  | nil => simp [setField]
  | cons p rest ih =>
      obtain ⟨k', v'⟩ := p
      by_cases h : k' = k
      · simp [setField, h]
      · simp [setField, h, ih]

theorem setField_comm (fs : List (String × JSVal)) (k1 k2 : String) (v1 v2 : JSVal)
    (h : k1 ≠ k2) (h1 : (lookupField fs k1).isSome = true)
    (h2 : (lookupField fs k2).isSome = true) :
    setField (setField fs k1 v1) k2 v2 = setField (setField fs k2 v2) k1 v1 := by
  induction fs with
  | nil => simp [lookupField] at h1
  | cons p rest ih =>
      obtain ⟨k', v'⟩ := p
      by_cases e1 : k' = k1
      · subst e1
        simp [setField, h]
      · by_cases e2 : k' = k2
        · subst e2
          simp [setField, Ne.symm h]
        · rw [lookupField] at h1 h2
          rw [if_neg e1] at h1
          rw [if_neg e2] at h2
          simp [setField, e1, e2, ih h1 h2]

theorem setProp_arr_ok {xs : List JSVal} {a : String} {v c' : JSVal}
    (h : (JSVal.arr xs).setProp a v = .ok c') : ∃ ys, c' = .arr ys := by
  by_cases hL : a = "length"
  · cases hql : arrayLengthValue? v with
    | some n =>
        simp [JSVal.setProp, hL, hql] at h
        exact ⟨_, h.symm⟩
    | none => simp [JSVal.setProp, hL, hql] at h
  · cases hci : canonIndex a with
    | some n =>
        by_cases hlt : n < xs.length
        · simp [JSVal.setProp, hL, hci, hlt] at h
          exact ⟨_, h.symm⟩
        · simp [JSVal.setProp, hL, hci, hlt] at h
          exact ⟨_, h.symm⟩
    | none =>
        simp [JSVal.setProp, hL, hci] at h
        exact ⟨_, h.symm⟩

theorem isArrV_setOk (c : JSVal) (a : String) (v : JSVal) :
    isArrV (setOk c a v) = isArrV c := by
  cases c with
  | arr xs =>
      rw [setOk]
      cases hsp : (JSVal.arr xs).setProp a v with
      | ok c' =>
          obtain ⟨ys, rfl⟩ := setProp_arr_ok hsp
          rfl
      | error e => rfl
  | obj fs => rfl
  | undefined => rfl
  | null => rfl
  | bool b => rfl
  | num n => rfl
  | str t => rfl

theorem isContainer_setOk (c : JSVal) (a : String) (v : JSVal) :
    (setOk c a v).isContainer = c.isContainer := by
  cases c with
  | arr xs =>
      rw [setOk]
      cases hsp : (JSVal.arr xs).setProp a v with
      | ok c' =>
          obtain ⟨ys, rfl⟩ := setProp_arr_ok hsp
          rfl
      | error e => rfl
  | obj fs => rfl
  | undefined => rfl
  | null => rfl
  | bool b => rfl
  | num n => rfl
  | str t => rfl

theorem setOk_obj (fs : List (String × JSVal)) (a : String) (v : JSVal) :
    setOk (.obj fs) a v = .obj (setField fs a v) := rfl

theorem setOk_arr_idx {xs : List JSVal} {a : String} {n : Nat} (hL : a ≠ "length")
    (hn : canonIndex a = some n) (hlt : n < xs.length) (v : JSVal) :
    setOk (.arr xs) a v = .arr (xs.set n v) := by
  simp [setOk, JSVal.setProp, hL, hn, hlt]

theorem arr_key_facts {xs : List JSVal} {a : String}
    (hp : (JSVal.arr xs).hasProp a = true)
    (hnl : ¬(isArrV (JSVal.arr xs) = true ∧ a = "length")) :
    a ≠ "length" ∧ ∃ n, canonIndex a = some n ∧ n < xs.length := by
  have hL : a ≠ "length" := fun h => hnl ⟨rfl, h⟩
  simp only [JSVal.hasProp] at hp
  rw [Bool.or_eq_true] at hp
  rcases hp with hp | hp
  · exact absurd (by simpa using hp) hL
  · cases hn : canonIndex a with
    | none => rw [hn] at hp; simp at hp
    | some n =>
        rw [hn] at hp
        simp at hp
        exact ⟨hL, n, rfl, hp⟩

theorem getProp_setOk_self {c : JSVal} {a : String} (hc : c.isContainer = true)
    (hp : c.hasProp a = true) (hnl : ¬(isArrV c = true ∧ a = "length")) (v : JSVal) :
    (setOk c a v).getProp a = v := by
  cases c with
  | obj fs =>
      rw [setOk_obj]
      simp [JSVal.getProp, lookupField_setField_self]
  | arr xs =>
      obtain ⟨hL, n, hn, hlt⟩ := arr_key_facts hp hnl
      rw [setOk_arr_idx hL hn hlt]
      simp only [JSVal.getProp, hL, if_false, if_neg hL, hn]
      rw [List.get?_set_eq_of_lt v hlt]
  | undefined => simp [JSVal.isContainer] at hc
  | null => simp [JSVal.isContainer] at hc
  | bool b => simp [JSVal.isContainer] at hc
  | num n => simp [JSVal.isContainer] at hc
  | str t => simp [JSVal.isContainer] at hc

theorem getProp_setOk_ne {c : JSVal} {a b : String} (hc : c.isContainer = true)
    (hp : c.hasProp a = true) (hnl : ¬(isArrV c = true ∧ a = "length")) (v : JSVal)
    (hba : b ≠ a) : (setOk c a v).getProp b = c.getProp b := by
  cases c with
  | obj fs =>
      rw [setOk_obj]
      simp [JSVal.getProp, lookupField_setField_ne fs a b v hba]
  | arr xs =>
      obtain ⟨hL, n, hn, hlt⟩ := arr_key_facts hp hnl
      rw [setOk_arr_idx hL hn hlt]
      by_cases hbL : b = "length"
      · simp [JSVal.getProp, hbL, List.length_set]
      · simp only [JSVal.getProp, if_neg hbL]
        cases hm : canonIndex b with
        | none => rfl
        | some m =>
            have hmn : n ≠ m := by
              intro he
              rw [he] at hn
              exact hba (canonIndex_inj hm hn)
            dsimp only
            rw [List.get?_set_ne v xs hmn]
  | undefined => simp [JSVal.isContainer] at hc
  | null => simp [JSVal.isContainer] at hc
  | bool b' => simp [JSVal.isContainer] at hc
  | num n => simp [JSVal.isContainer] at hc
  | str t => simp [JSVal.isContainer] at hc

theorem hasProp_setOk {c : JSVal} {a : String} (hc : c.isContainer = true)
    (hp : c.hasProp a = true) (hnl : ¬(isArrV c = true ∧ a = "length")) (v : JSVal)
    (b : String) : (setOk c a v).hasProp b = c.hasProp b := by
  cases c with
  | obj fs =>
      rw [setOk_obj]
      by_cases hba : b = a
      · subst hba
        simp only [JSVal.hasProp, lookupField_setField_self]
        simp only [JSVal.hasProp] at hp
        rw [hp]
        rfl
      · simp [JSVal.hasProp, lookupField_setField_ne fs a b v hba]
  | arr xs =>
      obtain ⟨hL, n, hn, hlt⟩ := arr_key_facts hp hnl
      rw [setOk_arr_idx hL hn hlt]
      simp [JSVal.hasProp, List.length_set]
  | undefined => simp [JSVal.isContainer] at hc
  | null => simp [JSVal.isContainer] at hc
  | bool b' => simp [JSVal.isContainer] at hc
  | num n => simp [JSVal.isContainer] at hc
  | str t => simp [JSVal.isContainer] at hc

theorem setOk_setOk {c : JSVal} {a : String} (hc : c.isContainer = true)
    (hp : c.hasProp a = true) (hnl : ¬(isArrV c = true ∧ a = "length")) (v w : JSVal) :
    setOk (setOk c a v) a w = setOk c a w := by
  cases c with
  | obj fs =>
      rw [setOk_obj, setOk_obj, setOk_obj, setField_setField]
  | arr xs =>
      obtain ⟨hL, n, hn, hlt⟩ := arr_key_facts hp hnl
      have hlt' : n < (xs.set n v).length := by simpa using hlt
      rw [setOk_arr_idx hL hn hlt, setOk_arr_idx hL hn hlt', setOk_arr_idx hL hn hlt,
        List.set_set]
  | undefined => simp [JSVal.isContainer] at hc
  | null => simp [JSVal.isContainer] at hc
  | bool b' => simp [JSVal.isContainer] at hc
  | num n => simp [JSVal.isContainer] at hc
  | str t => simp [JSVal.isContainer] at hc

theorem setOk_self {c : JSVal} {a : String} {v : JSVal} (hc : c.isContainer = true)
    (hp : c.hasProp a = true) (hnl : ¬(isArrV c = true ∧ a = "length"))
    (hv : c.getProp a = v) : setOk c a v = c := by
  cases c with
  | obj fs =>
      rw [setOk_obj]
      simp only [JSVal.hasProp] at hp
      cases hlk : lookupField fs a with
      | none => rw [hlk] at hp; simp at hp
      | some w =>
          have hw : w = v := by
            simp only [JSVal.getProp, hlk] at hv
            exact hv
          rw [hw] at hlk
          rw [setField_self fs a v hlk]
  | arr xs =>
      obtain ⟨hL, n, hn, hlt⟩ := arr_key_facts hp hnl
      rw [setOk_arr_idx hL hn hlt]
      have hg : xs.get? n = some v := by
        simp only [JSVal.getProp, if_neg hL, hn] at hv
        rw [List.get?_eq_get hlt] at hv
        dsimp only at hv
        rw [List.get?_eq_get hlt, hv]
      rw [list_set_get_self xs n v hg]
  | undefined => simp [JSVal.isContainer] at hc
  | null => simp [JSVal.isContainer] at hc
  | bool b' => simp [JSVal.isContainer] at hc
  | num n => simp [JSVal.isContainer] at hc
  | str t => simp [JSVal.isContainer] at hc

theorem setOk_comm {c : JSVal} {a b : String} (hc : c.isContainer = true)
    (hpa : c.hasProp a = true) (hpb : c.hasProp b = true)
    (hnla : ¬(isArrV c = true ∧ a = "length")) (hnlb : ¬(isArrV c = true ∧ b = "length"))
    (hab : a ≠ b) (v w : JSVal) :
    setOk (setOk c a v) b w = setOk (setOk c b w) a v := by
  cases c with
  | obj fs =>
      rw [setOk_obj, setOk_obj, setOk_obj, setOk_obj]
      simp only [JSVal.hasProp] at hpa hpb
      rw [setField_comm fs a b v w hab hpa hpb]
  | arr xs =>
      obtain ⟨hLa, n, hn, hltn⟩ := arr_key_facts hpa hnla
      obtain ⟨hLb, m, hm, hltm⟩ := arr_key_facts hpb hnlb
      have hnm : n ≠ m := by
        intro he
        rw [he] at hn
        exact hab (canonIndex_inj hn hm)
      have hltn' : n < (xs.set m w).length := by simpa using hltn
      have hltm' : m < (xs.set n v).length := by simpa using hltm
      rw [setOk_arr_idx hLa hn hltn, setOk_arr_idx hLb hm hltm',
        setOk_arr_idx hLb hm hltm, setOk_arr_idx hLa hn hltn',
        List.set_comm v w xs hnm]
  | undefined => simp [JSVal.isContainer] at hc
  | null => simp [JSVal.isContainer] at hc
  | bool b' => simp [JSVal.isContainer] at hc
  | num n => simp [JSVal.isContainer] at hc
  | str t => simp [JSVal.isContainer] at hc

/-! ### Path-level write lemmas -/

theorem contains_head_tail {a : String} {sp : List String}
    (h : (a :: sp).contains "" = false) : a ≠ "" ∧ sp.contains "" = false := by
  simp only [List.contains_cons, Bool.or_eq_false_iff, beq_eq_false_iff_ne, ne_eq] at h
  exact ⟨fun he => h.1 he.symm, h.2⟩

theorem single_nl {r : JSVal} {a : String} (hnl : lengthTargetB r [a] = false) :
    ¬(isArrV r = true ∧ a = "length") := by
  rintro ⟨h1, rfl⟩
  simp [lengthTargetB, h1] at hnl

theorem mid_nl {r : JSVal} {a : String} (hcc : (r.getProp a).isContainer = true) :
    ¬(isArrV r = true ∧ a = "length") := by
  rintro ⟨h1, rfl⟩
  rcases r with _ | _ | b | n | t | xs | fs <;> simp [isArrV] at h1
  simp [JSVal.getProp, JSVal.isContainer] at hcc

theorem setOk_of_setProp {c : JSVal} {a : String} {v c' : JSVal}
    (h : c.setProp a v = .ok c') : setOk c a v = c' := by
  show (match c.setProp a v with | .ok x => x | .error _ => c) = c'
  rw [h]

theorem cons_guard_facts {r : JSVal} {a b : String} {sp' : List String}
    (hg : (((a :: b :: sp').foldl resolveStep r)).isUndefined = false) :
    r.isContainer = true ∧ r.hasProp a = true
      ∧ ¬(isArrV r = true ∧ a = "length")
      ∧ (r.getProp a).isContainer = true
      ∧ (((b :: sp').foldl resolveStep (r.getProp a))).isUndefined = false := by
  obtain ⟨hchild, hc, hp, hstep⟩ := resolveSegs_cons_guard hg
  have hcc : (r.getProp a).isContainer = true := (resolveSegs_cons_guard hchild).2.1
  exact ⟨hc, hp, mid_nl hcc, hcc, hchild⟩

theorem resolveStep_getProp {r : JSVal} {a : String} (hc : r.isContainer = true)
    (hp : r.hasProp a = true) : resolveStep r a = r.getProp a := by
  rw [RS0, hc, if_pos rfl, hp, if_pos rfl]

theorem writeSegs_single_eq {r v : JSVal} {a : String} (ha : a ≠ "")
    (hg : ((([a] : List String).foldl resolveStep r)).isUndefined = false)
    (hnl : lengthTargetB r [a] = false) :
    r.setProp a v = .ok (writeSegs r [a] v) := by
  have hgo : assignGo r [a] v = r.setProp a v := by simp [assignGo, ha]
  rw [← hgo]
  exact assignGo_ok [a] r v hg hnl

theorem writeSegs_single {r v : JSVal} {a : String} (ha : a ≠ "")
    (hg : ((([a] : List String).foldl resolveStep r)).isUndefined = false)
    (hnl : lengthTargetB r [a] = false) :
    writeSegs r [a] v = setOk r a v :=
  (setOk_of_setProp (writeSegs_single_eq ha hg hnl)).symm

theorem writeSegs_cons {r v : JSVal} {a b : String} {sp' : List String} (ha : a ≠ "")
    (hg : (((a :: b :: sp').foldl resolveStep r)).isUndefined = false)
    (hnl : lengthTargetB r (a :: b :: sp') = false) :
    writeSegs r (a :: b :: sp') v
      = setOk r a (writeSegs (r.getProp a) (b :: sp') v) := by
  obtain ⟨hc, hp, hnl2, hcc, hchild⟩ := cons_guard_facts hg
  have hstep : resolveStep r a = r.getProp a := resolveStep_getProp hc hp
  have hnl' : lengthTargetB (r.getProp a) (b :: sp') = false := by
    rw [← lengthTargetB_cons hstep]
    exact hnl
  have hcr := assignGo_ok (b :: sp') (r.getProp a) v hchild hnl'
  have hgo : assignGo r (a :: b :: sp') v
      = r.setProp a (writeSegs (r.getProp a) (b :: sp') v) := by
    show (if a = "" then Except.ok r
          else
            match
              assignGo
                (if (r.getProp a).isContainer then r.getProp a else .obj [])
                (b :: sp') v
            with
            | .ok child => r.setProp a child
            | .error e => .error e) = _
    rw [if_neg ha, if_pos hcc, hcr]
  have hall := assignGo_ok (a :: b :: sp') r v hg hnl
  rw [hgo] at hall
  exact (setOk_of_setProp hall).symm

theorem resolveStep_setOk_written {r w : JSVal} {a : String} (hc : r.isContainer = true)
    (hp : r.hasProp a = true) (hnl : ¬(isArrV r = true ∧ a = "length")) :
    resolveStep (setOk r a w) a = w := by
  rw [RS0, isContainer_setOk, hc, if_pos rfl, hasProp_setOk hc hp hnl w a, hp, if_pos rfl]
  exact getProp_setOk_self hc hp hnl w

theorem resolveStep_setOk_other {r w : JSVal} {a c : String} (hc : r.isContainer = true)
    (hp : r.hasProp a = true) (hnl : ¬(isArrV r = true ∧ a = "length")) (hca : c ≠ a) :
    resolveStep (setOk r a w) c = resolveStep r c :=
  resolveStep_congr c (isContainer_setOk r a w) (hasProp_setOk hc hp hnl w c)
    (getProp_setOk_ne hc hp hnl w hca)

theorem resolve_writeSegs_self : ∀ (q : List String) (r v : JSVal), q ≠ [] →
    q.contains "" = false →
    ((q.foldl resolveStep r)).isUndefined = false →
    lengthTargetB r q = false →
    q.foldl resolveStep (writeSegs r q v) = v
  | [], _, _, hne, _, _, _ => absurd rfl hne
  | [a], r, v, _, hcon, hg, hnl => by
      obtain ⟨ha, _⟩ := contains_head_tail hcon
      rw [writeSegs_single ha hg hnl]
      show resolveStep (setOk r a v) a = v
      obtain ⟨hc, hp, _⟩ :=
        resolveStep_ne_undefined (show (resolveStep r a).isUndefined = false from hg)
      exact resolveStep_setOk_written hc hp (single_nl hnl)
  | a :: b :: sp', r, v, _, hcon, hg, hnl => by
      obtain ⟨ha, hcon'⟩ := contains_head_tail hcon
      obtain ⟨hc, hp, hnl2, hcc, hchild⟩ := cons_guard_facts hg
      have hstep : resolveStep r a = r.getProp a := resolveStep_getProp hc hp
      have hnl' : lengthTargetB (r.getProp a) (b :: sp') = false := by
        rw [← lengthTargetB_cons hstep]
        exact hnl
      rw [writeSegs_cons ha hg hnl]
      show (b :: sp').foldl resolveStep
          (resolveStep (setOk r a (writeSegs (r.getProp a) (b :: sp') v)) a) = v
      rw [resolveStep_setOk_written hc hp hnl2]
      exact resolve_writeSegs_self (b :: sp') (r.getProp a) v (by simp) hcon' hchild hnl'

theorem resolve_writeSegs_frame : ∀ (q t : List String) (r v : JSVal),
    q.contains "" = false →
    ((q.foldl resolveStep r)).isUndefined = false →
    lengthTargetB r q = false →
    segPrefixOf q t = false → segPrefixOf t q = false →
    t.foldl resolveStep (writeSegs r q v) = t.foldl resolveStep r
  | [], _, _, _, _, _, _, hqt, _ => by simp [segPrefixOf] at hqt
  | _ :: _, [], _, _, _, _, _, _, htq => by simp [segPrefixOf] at htq
  | a :: q', c :: t', r, v, hcon, hg, hnl, hqt, htq => by
      obtain ⟨ha, hcon'⟩ := contains_head_tail hcon
      by_cases hac : a = c
      · subst hac
        cases q' with
        | nil => simp [segPrefixOf] at hqt
        | cons b sp' =>
            cases t' with
            | nil => simp [segPrefixOf] at htq
            | cons c2 t2 =>
                have hqt' : segPrefixOf (b :: sp') (c2 :: t2) = false := by
                  simpa [segPrefixOf] using hqt
                have htq' : segPrefixOf (c2 :: t2) (b :: sp') = false := by
                  simpa [segPrefixOf] using htq
                obtain ⟨hc, hp, hnl2, hcc, hchild⟩ := cons_guard_facts hg
                have hstep : resolveStep r a = r.getProp a := resolveStep_getProp hc hp
                have hnl' : lengthTargetB (r.getProp a) (b :: sp') = false := by
                  rw [← lengthTargetB_cons hstep]
                  exact hnl
                rw [writeSegs_cons ha hg hnl]
                show (c2 :: t2).foldl resolveStep
                    (resolveStep (setOk r a (writeSegs (r.getProp a) (b :: sp') v)) a)
                  = (c2 :: t2).foldl resolveStep (resolveStep r a)
                rw [resolveStep_setOk_written hc hp hnl2, hstep]
                exact resolve_writeSegs_frame (b :: sp') (c2 :: t2) (r.getProp a) v
                  hcon' hchild hnl' hqt' htq'
      · cases q' with
        | nil =>
            obtain ⟨hc, hp, _⟩ :=
              resolveStep_ne_undefined (show (resolveStep r a).isUndefined = false from hg)
            rw [writeSegs_single ha hg hnl]
            show t'.foldl resolveStep (resolveStep (setOk r a v) c)
              = t'.foldl resolveStep (resolveStep r c)
            rw [resolveStep_setOk_other hc hp (single_nl hnl) (fun h => hac h.symm)]
        | cons b sp' =>
            obtain ⟨hc, hp, hnl2, hcc, hchild⟩ := cons_guard_facts hg
            rw [writeSegs_cons ha hg hnl]
            show t'.foldl resolveStep
                (resolveStep (setOk r a (writeSegs (r.getProp a) (b :: sp') v)) c)
              = t'.foldl resolveStep (resolveStep r c)
            rw [resolveStep_setOk_other hc hp hnl2 (fun h => hac h.symm)]

theorem isArrV_resolve_writeSegs : ∀ (q u : List String) (r v : JSVal),
    q.contains "" = false →
    ((q.foldl resolveStep r)).isUndefined = false →
    lengthTargetB r q = false →
    segPrefixOf q u = false →
    isArrV (u.foldl resolveStep (writeSegs r q v)) = isArrV (u.foldl resolveStep r)
  | [], _, _, _, _, _, _, hqu => by simp [segPrefixOf] at hqu
  | [a], [], r, v, hcon, hg, hnl, _ => by
      obtain ⟨ha, _⟩ := contains_head_tail hcon
      show isArrV (writeSegs r [a] v) = isArrV r
      rw [writeSegs_single ha hg hnl]
      exact isArrV_setOk r a v
  | a :: b :: sp', [], r, v, hcon, hg, hnl, _ => by
      obtain ⟨ha, _⟩ := contains_head_tail hcon
      show isArrV (writeSegs r (a :: b :: sp') v) = isArrV r
      rw [writeSegs_cons ha hg hnl]
      exact isArrV_setOk r a _
  | a :: q', c :: u', r, v, hcon, hg, hnl, hqu => by
      obtain ⟨ha, hcon'⟩ := contains_head_tail hcon
      by_cases hac : a = c
      · subst hac
        cases q' with
        | nil => simp [segPrefixOf] at hqu
        | cons b sp' =>
            have hqu' : segPrefixOf (b :: sp') u' = false := by
              simpa [segPrefixOf] using hqu
            obtain ⟨hc, hp, hnl2, hcc, hchild⟩ := cons_guard_facts hg
            have hstep : resolveStep r a = r.getProp a := resolveStep_getProp hc hp
            have hnl' : lengthTargetB (r.getProp a) (b :: sp') = false := by
              rw [← lengthTargetB_cons hstep]
              exact hnl
            rw [writeSegs_cons ha hg hnl]
            show isArrV (u'.foldl resolveStep
                (resolveStep (setOk r a (writeSegs (r.getProp a) (b :: sp') v)) a))
              = isArrV (u'.foldl resolveStep (resolveStep r a))
            rw [resolveStep_setOk_written hc hp hnl2, hstep]
            exact isArrV_resolve_writeSegs (b :: sp') u' (r.getProp a) v
              hcon' hchild hnl' hqu'
      · cases q' with
        | nil =>
            obtain ⟨hc, hp, _⟩ :=
              resolveStep_ne_undefined (show (resolveStep r a).isUndefined = false from hg)
            rw [writeSegs_single ha hg hnl]
            show isArrV (u'.foldl resolveStep (resolveStep (setOk r a v) c))
              = isArrV (u'.foldl resolveStep (resolveStep r c))
            rw [resolveStep_setOk_other hc hp (single_nl hnl) (fun h => hac h.symm)]
        | cons b sp' =>
            obtain ⟨hc, hp, hnl2, hcc, hchild⟩ := cons_guard_facts hg
            rw [writeSegs_cons ha hg hnl]
            show isArrV (u'.foldl resolveStep
                (resolveStep (setOk r a (writeSegs (r.getProp a) (b :: sp') v)) c))
              = isArrV (u'.foldl resolveStep (resolveStep r c))
            rw [resolveStep_setOk_other hc hp hnl2 (fun h => hac h.symm)]

theorem foldl_resolveStep_bool {u : List String} (hu : u ≠ []) (b : Bool) :
    u.foldl resolveStep (.bool b) = .undefined := by
  cases u with
  | nil => exact absurd rfl hu
  | cons w u' =>
      show u'.foldl resolveStep (resolveStep (.bool b) w) = _
      rw [show resolveStep (.bool b) w = .undefined from rfl]
      exact foldl_resolveStep_undefined u'

theorem container_of_live_extension : ∀ (q u : List String) (r : JSVal), u ≠ [] →
    ((((q ++ u).foldl resolveStep r)).isUndefined = false) →
    ((q.foldl resolveStep r)).isContainer = true := by
  intro q u r hu hg
  rw [List.foldl_append] at hg
  cases hX : (q.foldl resolveStep r).isContainer with
  | true => rfl
  | false =>
      exfalso
      cases u with
      | nil => exact hu rfl
      | cons w u' =>
          have h1 : resolveStep (q.foldl resolveStep r) w = .undefined :=
            resolveStep_not_container hX w
          have h2 : ((w :: u').foldl resolveStep (q.foldl resolveStep r)).isUndefined
              = false := hg
          rw [show (w :: u').foldl resolveStep (q.foldl resolveStep r)
              = u'.foldl resolveStep (resolveStep (q.foldl resolveStep r) w) from rfl,
            h1, foldl_resolveStep_undefined] at h2
          exact absurd h2 (by decide)

/-! ### Overwrite, self-absorption, and commutation of guarded writes -/

theorem lengthTargetB_eq_of_isArrV {x y : JSVal} {sp : List String}
    (h : isArrV (sp.dropLast.foldl resolveStep x) = isArrV (sp.dropLast.foldl resolveStep y)) :
    lengthTargetB x sp = lengthTargetB y sp := by
  show (match sp.getLast? with
        | some k => k == "length" && isArrV (sp.dropLast.foldl resolveStep x)
        | none => false)
      = (match sp.getLast? with
        | some k => k == "length" && isArrV (sp.dropLast.foldl resolveStep y)
        | none => false)
  rw [h]

theorem lengthTargetB_single (r : JSVal) (a : String) :
    lengthTargetB r [a] = (a == "length" && isArrV r) := rfl

theorem fold_resolve_setOk_other {r w : JSVal} {a : String} (hc : r.isContainer = true)
    (hp : r.hasProp a = true) (hnl : ¬(isArrV r = true ∧ a = "length"))
    (t : List String) {c : String} (hca : c ≠ a) :
    (c :: t).foldl resolveStep (setOk r a w) = (c :: t).foldl resolveStep r := by
  show t.foldl resolveStep (resolveStep (setOk r a w) c)
    = t.foldl resolveStep (resolveStep r c)
  rw [resolveStep_setOk_other hc hp hnl hca]

theorem fold_resolve_setOk_written {r w : JSVal} {a : String} (hc : r.isContainer = true)
    (hp : r.hasProp a = true) (hnl : ¬(isArrV r = true ∧ a = "length"))
    (t : List String) :
    (a :: t).foldl resolveStep (setOk r a w) = t.foldl resolveStep w := by
  show t.foldl resolveStep (resolveStep (setOk r a w) a) = _
  rw [resolveStep_setOk_written hc hp hnl]

theorem lengthTargetB_setOk_other {r w : JSVal} {a : String} (hc : r.isContainer = true)
    (hp : r.hasProp a = true) (hnl : ¬(isArrV r = true ∧ a = "length"))
    {c : String} (p₂ : List String) (hca : c ≠ a) :
    lengthTargetB (setOk r a w) (c :: p₂) = lengthTargetB r (c :: p₂) := by
  apply lengthTargetB_eq_of_isArrV
  cases p₂ with
  | nil =>
      show isArrV (setOk r a w) = isArrV r
      exact isArrV_setOk r a w
  | cons d p₃ =>
      rw [show ((c :: d :: p₃).dropLast) = c :: ((d :: p₃).dropLast) from rfl]
      show isArrV ((d :: p₃).dropLast.foldl resolveStep (resolveStep (setOk r a w) c))
        = isArrV ((d :: p₃).dropLast.foldl resolveStep (resolveStep r c))
      rw [resolveStep_setOk_other hc hp hnl hca]

theorem lengthTargetB_setOk_written {r w : JSVal} {a b : String} {sp' : List String}
    (hc : r.isContainer = true) (hp : r.hasProp a = true)
    (hnl : ¬(isArrV r = true ∧ a = "length")) :
    lengthTargetB (setOk r a w) (a :: b :: sp') = lengthTargetB w (b :: sp') := by
  have hcX : (setOk r a w).isContainer = true := by
    rw [isContainer_setOk]
    exact hc
  have hpX : (setOk r a w).hasProp a = true := by
    rw [hasProp_setOk hc hp hnl]
    exact hp
  have hstepX : resolveStep (setOk r a w) a = (setOk r a w).getProp a :=
    resolveStep_getProp hcX hpX
  rw [lengthTargetB_cons hstepX, getProp_setOk_self hc hp hnl]

theorem writeSegs_resolve_self : ∀ (q : List String) (r : JSVal), q ≠ [] →
    q.contains "" = false →
    ((q.foldl resolveStep r)).isUndefined = false →
    lengthTargetB r q = false →
    writeSegs r q (q.foldl resolveStep r) = r
  | [], _, hne, _, _, _ => absurd rfl hne
  | [a], r, _, hcon, hg, hnl => by
      obtain ⟨ha, _⟩ := contains_head_tail hcon
      obtain ⟨hc, hp, hgp⟩ :=
        resolveStep_ne_undefined (show (resolveStep r a).isUndefined = false from hg)
      rw [writeSegs_single ha hg hnl]
      exact setOk_self hc hp (single_nl hnl) hgp.symm
  | a :: b :: sp', r, _, hcon, hg, hnl => by
      obtain ⟨ha, hcon'⟩ := contains_head_tail hcon
      obtain ⟨hc, hp, hnl2, hcc, hchild⟩ := cons_guard_facts hg
      have hstep : resolveStep r a = r.getProp a := resolveStep_getProp hc hp
      have hnl' : lengthTargetB (r.getProp a) (b :: sp') = false := by
        rw [← lengthTargetB_cons hstep]
        exact hnl
      have hfold : (a :: b :: sp').foldl resolveStep r
          = (b :: sp').foldl resolveStep (r.getProp a) := by
        show (b :: sp').foldl resolveStep (resolveStep r a) = _
        rw [hstep]
      rw [writeSegs_cons ha hg hnl, hfold,
        writeSegs_resolve_self (b :: sp') (r.getProp a) (by simp) hcon' hchild hnl']
      exact setOk_self hc hp hnl2 rfl

theorem writeSegs_self_absorb {q : List String} {r v : JSVal} (hne : q ≠ [])
    (hcon : q.contains "" = false)
    (hg : ((q.foldl resolveStep r)).isUndefined = false)
    (hnl : lengthTargetB r q = false)
    (hv : q.foldl resolveStep r = v) : writeSegs r q v = r := by
  rw [← hv]
  exact writeSegs_resolve_self q r hne hcon hg hnl

theorem writeSegs_overwrite : ∀ (q : List String) (r v1 v2 : JSVal),
    q.contains "" = false →
    ((q.foldl resolveStep r)).isUndefined = false →
    lengthTargetB r q = false →
    v1.isUndefined = false →
    writeSegs (writeSegs r q v1) q v2 = writeSegs r q v2
  | [], r, v1, v2, _, _, _, _ => rfl
  | [a], r, v1, v2, hcon, hg, hnl, hv1 => by
      obtain ⟨ha, _⟩ := contains_head_tail hcon
      obtain ⟨hc, hp, _⟩ :=
        resolveStep_ne_undefined (show (resolveStep r a).isUndefined = false from hg)
      have hnl1 := single_nl hnl
      rw [writeSegs_single ha hg hnl]
      have hg2 : ((([a] : List String).foldl resolveStep (setOk r a v1))).isUndefined
          = false := by
        show (resolveStep (setOk r a v1) a).isUndefined = false
        rw [resolveStep_setOk_written hc hp hnl1]
        exact hv1
      have hnl2 : lengthTargetB (setOk r a v1) [a] = false := by
        rw [lengthTargetB_single, isArrV_setOk, ← lengthTargetB_single]
        exact hnl
      rw [writeSegs_single ha hg2 hnl2, writeSegs_single ha hg hnl]
      exact setOk_setOk hc hp hnl1 v1 v2
  | a :: b :: sp', r, v1, v2, hcon, hg, hnl, hv1 => by
      obtain ⟨ha, hcon'⟩ := contains_head_tail hcon
      obtain ⟨hc, hp, hnl2, hcc, hchild⟩ := cons_guard_facts hg
      have hstep : resolveStep r a = r.getProp a := resolveStep_getProp hc hp
      have hnl' : lengthTargetB (r.getProp a) (b :: sp') = false := by
        rw [← lengthTargetB_cons hstep]
        exact hnl
      rw [writeSegs_cons ha hg hnl]
      have hresW : (b :: sp').foldl resolveStep
          (writeSegs (r.getProp a) (b :: sp') v1) = v1 :=
        resolve_writeSegs_self (b :: sp') (r.getProp a) v1 (by simp) hcon' hchild hnl'
      have hgX : (((a :: b :: sp').foldl resolveStep
          (setOk r a (writeSegs (r.getProp a) (b :: sp') v1)))).isUndefined = false := by
        rw [fold_resolve_setOk_written hc hp hnl2, hresW]
        exact hv1
      have hnlX : lengthTargetB (setOk r a (writeSegs (r.getProp a) (b :: sp') v1))
          (a :: b :: sp') = false := by
        rw [lengthTargetB_setOk_written hc hp hnl2]
        rw [lengthTargetB_eq_of_isArrV
          (isArrV_resolve_writeSegs (b :: sp') (b :: sp').dropLast (r.getProp a) v1
            hcon' hchild hnl' (segPrefixOf_dropLast_self (by simp)))]
        exact hnl'
      rw [writeSegs_cons ha hgX hnlX, getProp_setOk_self hc hp hnl2,
        setOk_setOk hc hp hnl2,
        writeSegs_overwrite (b :: sp') (r.getProp a) v1 v2 hcon' hchild hnl' hv1,
        writeSegs_cons ha hg hnl]

theorem head_facts : ∀ {a : String} {q₂ : List String} {r : JSVal},
    ((((a :: q₂).foldl resolveStep r))).isUndefined = false →
    lengthTargetB r (a :: q₂) = false →
    r.isContainer = true ∧ r.hasProp a = true ∧ ¬(isArrV r = true ∧ a = "length") := by
  intro a q₂ r hg hnl
  cases q₂ with
  | nil =>
      obtain ⟨hc, hp, _⟩ :=
        resolveStep_ne_undefined (show (resolveStep r a).isUndefined = false from hg)
      exact ⟨hc, hp, single_nl hnl⟩
  | cons b sp =>
      obtain ⟨hc, hp, hnl2, _, _⟩ := cons_guard_facts hg
      exact ⟨hc, hp, hnl2⟩

theorem writeSegs_head : ∀ {a : String} {q₂ : List String} {r : JSVal} (v : JSVal),
    (a :: q₂).contains "" = false →
    ((((a :: q₂).foldl resolveStep r))).isUndefined = false →
    lengthTargetB r (a :: q₂) = false →
    ∃ w, ∀ (r' : JSVal), r'.isContainer = true → r'.hasProp a = true →
          isArrV r' = isArrV r → r'.getProp a = r.getProp a →
          writeSegs r' (a :: q₂) v = setOk r' a w := by
  intro a q₂ r v hcon hg hnl
  obtain ⟨ha, hcon'⟩ := contains_head_tail hcon
  cases q₂ with
  | nil =>
      obtain ⟨hc, hp, _⟩ :=
        resolveStep_ne_undefined (show (resolveStep r a).isUndefined = false from hg)
      refine ⟨v, fun r' hc' hp' hArr hgp' => ?_⟩
      have hg' : ((([a] : List String).foldl resolveStep r')).isUndefined = false := by
        show (resolveStep r' a).isUndefined = false
        rw [resolveStep_getProp hc' hp', hgp', ← resolveStep_getProp hc hp]
        exact hg
      have hnl' : lengthTargetB r' [a] = false := by
        rw [lengthTargetB_single, hArr, ← lengthTargetB_single]
        exact hnl
      exact writeSegs_single ha hg' hnl'
  | cons b sp =>
      obtain ⟨hc, hp, hnl2, hcc, hchild⟩ := cons_guard_facts hg
      have hstep : resolveStep r a = r.getProp a := resolveStep_getProp hc hp
      have hnlc : lengthTargetB (r.getProp a) (b :: sp) = false := by
        rw [← lengthTargetB_cons hstep]
        exact hnl
      refine ⟨writeSegs (r.getProp a) (b :: sp) v, fun r' hc' hp' hArr hgp' => ?_⟩
      have hstep' : resolveStep r' a = r'.getProp a := resolveStep_getProp hc' hp'
      have hg' : (((a :: b :: sp).foldl resolveStep r')).isUndefined = false := by
        show ((b :: sp).foldl resolveStep (resolveStep r' a)).isUndefined = false
        rw [hstep', hgp']
        exact hchild
      have hnl' : lengthTargetB r' (a :: b :: sp) = false := by
        rw [lengthTargetB_cons hstep', hgp']
        exact hnlc
      rw [writeSegs_cons ha hg' hnl', hgp']

theorem writeSegs_comm : ∀ (q p : List String) (r vq vp : JSVal),
    q.contains "" = false → p.contains "" = false →
    ((q.foldl resolveStep r)).isUndefined = false →
    ((p.foldl resolveStep r)).isUndefined = false →
    lengthTargetB r q = false → lengthTargetB r p = false →
    segPrefixOf q p = false → segPrefixOf p q = false →
    writeSegs (writeSegs r q vq) p vp = writeSegs (writeSegs r p vp) q vq
  | [], _, _, _, _, _, _, _, _, _, _, hqp, _ => by simp [segPrefixOf] at hqp
  | _ :: _, [], _, _, _, _, _, _, _, _, _, _, hpq => by simp [segPrefixOf] at hpq
  | a :: q₂, c :: p₂, r, vq, vp, hconq, hconp, hgq, hgp, hnlq, hnlp, hqp, hpq => by
      obtain ⟨ha, hconq'⟩ := contains_head_tail hconq
      obtain ⟨hcne, hconp'⟩ := contains_head_tail hconp
      by_cases hac : a = c
      · subst hac
        cases q₂ with
        | nil => simp [segPrefixOf] at hqp
        | cons b sp =>
        cases p₂ with
        | nil => simp [segPrefixOf] at hpq
        | cons d sp2 =>
        obtain ⟨hc, hpa, hnla, hcca, hchildq⟩ := cons_guard_facts hgq
        have hchildp : (((d :: sp2).foldl resolveStep (r.getProp a))).isUndefined = false :=
          (cons_guard_facts hgp).2.2.2.2
        have hstep : resolveStep r a = r.getProp a := resolveStep_getProp hc hpa
        have hnlq' : lengthTargetB (r.getProp a) (b :: sp) = false := by
          rw [← lengthTargetB_cons hstep]
          exact hnlq
        have hnlp' : lengthTargetB (r.getProp a) (d :: sp2) = false := by
          rw [← lengthTargetB_cons hstep]
          exact hnlp
        have hqp' : segPrefixOf (b :: sp) (d :: sp2) = false := by
          simpa [segPrefixOf] using hqp
        have hpq' : segPrefixOf (d :: sp2) (b :: sp) = false := by
          simpa [segPrefixOf] using hpq
        have hqdl : segPrefixOf (b :: sp) ((d :: sp2).dropLast) = false := by
          cases hx : segPrefixOf (b :: sp) ((d :: sp2).dropLast) with
          | false => rfl
          | true =>
              have h1 := (segPrefixOf_dropLast (show (d :: sp2) ≠ [] by simp) hx).1
              rw [hqp'] at h1
              exact Bool.noConfusion h1
        have hpdl : segPrefixOf (d :: sp2) ((b :: sp).dropLast) = false := by
          cases hx : segPrefixOf (d :: sp2) ((b :: sp).dropLast) with
          | false => rfl
          | true =>
              have h1 := (segPrefixOf_dropLast (show (b :: sp) ≠ [] by simp) hx).1
              rw [hpq'] at h1
              exact Bool.noConfusion h1
        rw [writeSegs_cons ha hgq hnlq, writeSegs_cons ha hgp hnlp]
        have hgPX : (((a :: d :: sp2).foldl resolveStep
            (setOk r a (writeSegs (r.getProp a) (b :: sp) vq)))).isUndefined = false := by
          rw [fold_resolve_setOk_written hc hpa hnla,
            resolve_writeSegs_frame (b :: sp) (d :: sp2) (r.getProp a) vq
              hconq' hchildq hnlq' hqp' hpq']
          exact hchildp
        have hnlPX : lengthTargetB (setOk r a (writeSegs (r.getProp a) (b :: sp) vq))
            (a :: d :: sp2) = false := by
          rw [lengthTargetB_setOk_written hc hpa hnla,
            lengthTargetB_eq_of_isArrV
              (isArrV_resolve_writeSegs (b :: sp) (d :: sp2).dropLast (r.getProp a) vq
                hconq' hchildq hnlq' hqdl)]
          exact hnlp'
        have hgQY : (((a :: b :: sp).foldl resolveStep
            (setOk r a (writeSegs (r.getProp a) (d :: sp2) vp)))).isUndefined = false := by
          rw [fold_resolve_setOk_written hc hpa hnla,
            resolve_writeSegs_frame (d :: sp2) (b :: sp) (r.getProp a) vp
              hconp' hchildp hnlp' hpq' hqp']
          exact hchildq
        have hnlQY : lengthTargetB (setOk r a (writeSegs (r.getProp a) (d :: sp2) vp))
            (a :: b :: sp) = false := by
          rw [lengthTargetB_setOk_written hc hpa hnla,
            lengthTargetB_eq_of_isArrV
              (isArrV_resolve_writeSegs (d :: sp2) (b :: sp).dropLast (r.getProp a) vp
                hconp' hchildp hnlp' hpdl)]
          exact hnlq'
        rw [writeSegs_cons ha hgPX hnlPX, writeSegs_cons ha hgQY hnlQY,
          getProp_setOk_self hc hpa hnla, getProp_setOk_self hc hpa hnla,
          setOk_setOk hc hpa hnla, setOk_setOk hc hpa hnla,
          writeSegs_comm (b :: sp) (d :: sp2) (r.getProp a) vq vp
            hconq' hconp' hchildq hchildp hnlq' hnlp' hqp' hpq']
      · obtain ⟨hc, hpa, hnla⟩ := head_facts hgq hnlq
        obtain ⟨_, hpc, hnlc⟩ := head_facts hgp hnlp
        have hca : c ≠ a := fun h => hac h.symm
        obtain ⟨Aq, hAq⟩ := writeSegs_head vq hconq hgq hnlq
        obtain ⟨Ap, hAp⟩ := writeSegs_head vp hconp hgp hnlp
        rw [hAq r hc hpa rfl rfl, hAp r hc hpc rfl rfl]
        rw [hAp (setOk r a Aq) (by rw [isContainer_setOk]; exact hc)
            (by rw [hasProp_setOk hc hpa hnla]; exact hpc)
            (isArrV_setOk r a Aq) (getProp_setOk_ne hc hpa hnla Aq hca)]
        rw [hAq (setOk r c Ap) (by rw [isContainer_setOk]; exact hc)
            (by rw [hasProp_setOk hc hpc hnlc]; exact hpa)
            (isArrV_setOk r c Ap) (getProp_setOk_ne hc hpc hnlc Ap hac)]
        exact setOk_comm hc hpa hpc hnla hnlc hac Aq Ap

/-! ### Per-dispatch step lemmas -/

theorem splitCharAux_ne_nil (c : Char) : ∀ (cs acc : List Char), splitCharAux c cs acc ≠ []
  | [], acc => by simp [splitCharAux]
  | x :: xs, acc => by
      rw [splitCharAux]
      split
      · simp
      · exact splitCharAux_ne_nil c xs _

theorem targetOf_ne_nil (d : String × Option String) : targetOf d ≠ [] :=
  splitCharAux_ne_nil '.' _ _

theorem applyD_empty {opts : ArgletOptions} {r : JSVal} {d : String × Option String}
    (h : d.1 = "") : applyD opts r d = r := by
  simp [applyD, h]

theorem applyD_dead {opts : ArgletOptions} {r : JSVal} {d : String × Option String}
    (h : (((targetOf d).foldl resolveStep r)).isUndefined = true) :
    applyD opts r d = r := by
  by_cases h0 : d.1 = ""
  · simp [applyD, h0]
  · simp [applyD, h0, h]

theorem applyD_live {opts : ArgletOptions} {r : JSVal} {d : String × Option String}
    (h0 : d.1 ≠ "") (h : (((targetOf d).foldl resolveStep r)).isUndefined = false) :
    applyD opts r d = writeSegs r (targetOf d) (dispatchValue opts d) := by
  by_cases hno : jsStartsWith d.1 "no-" = true
  · simp [applyD, h0, h, hno, dispatchValue]
  · obtain ⟨nm, rv⟩ := d
    simp only [ne_eq] at h0
    cases rv with
    | none => simp [applyD, h0, h, hno, dispatchValue]
    | some v => simp [applyD, h0, h, hno, dispatchValue]

theorem applyD_cases (opts : ArgletOptions) (ρ : JSVal) (d : String × Option String) :
    applyD opts ρ d = ρ ∨
      (d.1 ≠ "" ∧ (((targetOf d).foldl resolveStep ρ)).isUndefined = false ∧
        applyD opts ρ d = writeSegs ρ (targetOf d) (dispatchValue opts d)) := by
  by_cases h0 : d.1 = ""
  · exact Or.inl (applyD_empty h0)
  · cases hact : ((targetOf d).foldl resolveStep ρ).isUndefined with
    | true => exact Or.inl (applyD_dead hact)
    | false => exact Or.inr ⟨h0, rfl, applyD_live h0 hact⟩

theorem dispatchValue_not_undefined (opts : ArgletOptions) (d : String × Option String) :
    (dispatchValue opts d).isUndefined = false := by
  obtain ⟨nm, rv⟩ := d
  by_cases hno : jsStartsWith nm "no-" = true
  · simp [dispatchValue, hno, JSVal.isUndefined]
  · cases rv with
    | none => simp [dispatchValue, hno, JSVal.isUndefined]
    | some v =>
        simp only [dispatchValue, hno, if_false, Bool.false_eq_true]
        show (parsedValueOf opts v).isUndefined = false
        rw [parsedValueOf]
        split <;> rfl

theorem value_or_toggle {d : String × Option String} (h0 : d.1 ≠ "") :
    (isValueD d = true ∧ isToggleD d = false)
      ∨ (isToggleD d = true ∧ isValueD d = false) := by
  obtain ⟨nm, rv⟩ := d
  simp only [ne_eq] at h0
  by_cases hno : jsStartsWith nm "no-" = true
  · right
    simp [isValueD, isToggleD, hno, h0]
  · cases rv with
    | none => right; simp [isValueD, isToggleD, hno, h0]
    | some v => left; simp [isValueD, isToggleD, hno, h0]

theorem value_toggle_excl {d : String × Option String} (hv : isValueD d = true)
    (ht : isToggleD d = true) : False := by
  by_cases h0 : d.1 = ""
  · rw [isValueD, h0] at hv
    simp at hv
  · rcases value_or_toggle h0 with ⟨_, h⟩ | ⟨_, h⟩
    · rw [h] at ht
      exact Bool.noConfusion ht
    · rw [h] at hv
      exact Bool.noConfusion hv

theorem bool_of_boolOrUndefined {v : JSVal} (h : boolOrUndefined v = true)
    (hu : v.isUndefined = false) : ∃ b, v = .bool b := by
  cases v with
  | bool b => exact ⟨b, rfl⟩
  | undefined => simp [JSVal.isUndefined] at hu
  | null => simp [boolOrUndefined] at h
  | num n => simp [boolOrUndefined] at h
  | str t => simp [boolOrUndefined] at h
  | arr xs => simp [boolOrUndefined] at h
  | obj fs => simp [boolOrUndefined] at h

theorem boolOrUndefined_not_container {v : JSVal} (h : boolOrUndefined v = true) :
    v.isContainer = false := by
  cases v <;> simp [boolOrUndefined, JSVal.isContainer] at h ⊢

theorem dispatchValue_toggle (opts : ArgletOptions) {d : String × Option String}
    (ht : isToggleD d = true) : ∃ b, dispatchValue opts d = .bool b := by
  obtain ⟨nm, rv⟩ := d
  by_cases hno : jsStartsWith nm "no-" = true
  · exact ⟨false, by simp [dispatchValue, hno]⟩
  · have hrv : rv = none := by
      simp only [isToggleD, Bool.and_eq_true, Bool.or_eq_true] at ht
      rcases ht.2 with h | h
      · exact absurd h (by simp [hno])
      · simpa using h
    subst hrv
    exact ⟨true, by simp [dispatchValue, hno]⟩

theorem live_guards {ρ : JSVal} {e : String × Option String} (hge : GoodD ρ e)
    (h0 : e.1 ≠ "")
    (hact : (((targetOf e).foldl resolveStep ρ)).isUndefined = false) :
    (targetOf e).contains "" = false ∧ lengthTargetB ρ (targetOf e) = false := by
  rcases value_or_toggle h0 with ⟨hv, _⟩ | ⟨ht, _⟩
  · exact hge.1 hv
  · obtain ⟨hcont, hbu⟩ := hge.2 ht
    obtain ⟨b, hb⟩ := bool_of_boolOrUndefined hbu hact
    exact ⟨hcont, lengthTargetB_false_of_bool hb⟩

theorem applyD_frame (opts : ArgletOptions) {ρ : JSVal} {e dObs : String × Option String}
    (hge : GoodD ρ e) (hgo : GoodD ρ dObs) (hr1 : DRel e dObs) (hr2 : DRel dObs e)
    (hkind : isValueD dObs = true ∨ isToggleD dObs = true)
    (hne : targetOf e ≠ targetOf dObs) :
    (targetOf dObs).foldl resolveStep (applyD opts ρ e)
      = (targetOf dObs).foldl resolveStep ρ := by
  rcases applyD_cases opts ρ e with heq | ⟨h0, hact, heq⟩
  · rw [heq]
  · rw [heq]
    obtain ⟨hconq, hnlq⟩ := live_guards hge h0 hact
    rcases value_or_toggle h0 with ⟨hv, _⟩ | ⟨ht, _⟩
    · rcases hkind with hvo | hto
      · rcases hr1.1 hv hvo with hteq | ⟨hx1, hx2⟩
        · exact absurd hteq hne
        · exact resolve_writeSegs_frame _ _ ρ _ hconq hact hnlq hx1 hx2
      · have hx1 : segPrefixOf (targetOf e) (targetOf dObs) = false := hr1.2.1 hv hto
        cases hx2 : segPrefixOf (targetOf dObs) (targetOf e) with
        | false => exact resolve_writeSegs_frame _ _ ρ _ hconq hact hnlq hx1 hx2
        | true =>
            exfalso
            obtain ⟨u, hu, hqu⟩ := segPrefixOf_strict hx2 (fun h => hne h.symm)
            have hcont : (((targetOf dObs).foldl resolveStep ρ)).isContainer = true := by
              apply container_of_live_extension (targetOf dObs) u ρ hu
              rw [← hqu]
              exact hact
            have hbu := (hgo.2 hto).2
            rw [boolOrUndefined_not_container hbu] at hcont
            exact Bool.noConfusion hcont
    · obtain ⟨hcont, hbu⟩ := hge.2 ht
      obtain ⟨b, hb⟩ := bool_of_boolOrUndefined hbu hact
      obtain ⟨bv, hbv⟩ := dispatchValue_toggle opts ht
      cases hx1 : segPrefixOf (targetOf e) (targetOf dObs) with
      | true =>
          obtain ⟨u, hu, htu⟩ := segPrefixOf_strict hx1 hne
          rw [htu, List.foldl_append, List.foldl_append,
            resolve_writeSegs_self (targetOf e) ρ _ (targetOf_ne_nil e) hconq hact hnlq,
            hb, hbv, foldl_resolveStep_bool hu bv, foldl_resolveStep_bool hu b]
      | false =>
          cases hx2 : segPrefixOf (targetOf dObs) (targetOf e) with
          | false => exact resolve_writeSegs_frame _ _ ρ _ hconq hact hnlq hx1 hx2
          | true =>
              exfalso
              obtain ⟨u, hu, hqu⟩ := segPrefixOf_strict hx2 (fun h => hne h.symm)
              have hcont2 : (((targetOf dObs).foldl resolveStep ρ)).isContainer = true := by
                apply container_of_live_extension (targetOf dObs) u ρ hu
                rw [← hqu]
                exact hact
              rcases hkind with hvo | hto
              · have hx3 := hr2.2.1 hvo ht
                rw [hx2] at hx3
                exact Bool.noConfusion hx3
              · have hbu2 := (hgo.2 hto).2
                rw [boolOrUndefined_not_container hbu2] at hcont2
                exact Bool.noConfusion hcont2

theorem applyD_lengthTargetB (opts : ArgletOptions) {ρ : JSVal}
    {e dObs : String × Option String}
    (hge : GoodD ρ e) (_hgo : GoodD ρ dObs) (hr1 : DRel e dObs) (_hr2 : DRel dObs e)
    (hvo : isValueD dObs = true) :
    lengthTargetB (applyD opts ρ e) (targetOf dObs)
      = lengthTargetB ρ (targetOf dObs) := by
  rcases applyD_cases opts ρ e with heq | ⟨h0, hact, heq⟩
  · rw [heq]
  · rw [heq]
    obtain ⟨hconq, hnlq⟩ := live_guards hge h0 hact
    apply lengthTargetB_eq_of_isArrV
    cases hx : segPrefixOf (targetOf e) ((targetOf dObs).dropLast) with
    | false => exact isArrV_resolve_writeSegs _ _ ρ _ hconq hact hnlq hx
    | true =>
        obtain ⟨hqt, hqnet⟩ := segPrefixOf_dropLast (targetOf_ne_nil dObs) hx
        rcases value_or_toggle h0 with ⟨hv, _⟩ | ⟨ht, _⟩
        · exfalso
          rcases hr1.1 hv hvo with hteq | ⟨hx1, _⟩
          · exact hqnet hteq
          · rw [hqt] at hx1
            exact Bool.noConfusion hx1
        · obtain ⟨hcont, hbu⟩ := hge.2 ht
          obtain ⟨b, hb⟩ := bool_of_boolOrUndefined hbu hact
          obtain ⟨u, hdlu⟩ := segPrefixOf_append hx
          obtain ⟨bv, hbv⟩ := dispatchValue_toggle opts ht
          rw [hdlu, List.foldl_append, List.foldl_append,
            resolve_writeSegs_self (targetOf e) ρ _ (targetOf_ne_nil e) hconq hact hnlq,
            hb, hbv]
          cases u with
          | nil => rfl
          | cons w u' =>
              rw [foldl_resolveStep_bool (by simp) bv, foldl_resolveStep_bool (by simp) b]

theorem applyD_liveness (opts : ArgletOptions) {ρ : JSVal}
    {e dObs : String × Option String}
    (hge : GoodD ρ e) (hgo : GoodD ρ dObs) (hr1 : DRel e dObs) (hr2 : DRel dObs e)
    (hkind : isValueD dObs = true ∨ isToggleD dObs = true) :
    ((((targetOf dObs).foldl resolveStep (applyD opts ρ e)))).isUndefined
      = ((((targetOf dObs).foldl resolveStep ρ))).isUndefined := by
  by_cases hne : targetOf e = targetOf dObs
  · rcases applyD_cases opts ρ e with heq | ⟨h0, hact, heq⟩
    · rw [heq]
    · obtain ⟨hconq, hnlq⟩ := live_guards hge h0 hact
      rw [heq, ← hne,
        resolve_writeSegs_self (targetOf e) ρ _ (targetOf_ne_nil e) hconq hact hnlq,
        dispatchValue_not_undefined opts e, hact]
  · rw [applyD_frame opts hge hgo hr1 hr2 hkind hne]

theorem applyD_boolOrUndefined (opts : ArgletOptions) {ρ : JSVal}
    {e dObs : String × Option String}
    (hge : GoodD ρ e) (hgo : GoodD ρ dObs) (hr1 : DRel e dObs) (hr2 : DRel dObs e)
    (hto : isToggleD dObs = true)
    (hbu : boolOrUndefined ((((targetOf dObs).foldl resolveStep ρ))) = true) :
    boolOrUndefined ((((targetOf dObs).foldl resolveStep (applyD opts ρ e)))) = true := by
  by_cases hne : targetOf e = targetOf dObs
  · rcases applyD_cases opts ρ e with heq | ⟨h0, hact, heq⟩
    · rw [heq]
      exact hbu
    · rcases value_or_toggle h0 with ⟨hv, _⟩ | ⟨ht, _⟩
      · exfalso
        have hx := hr1.2.1 hv hto
        rw [hne, segPrefixOf_refl] at hx
        exact Bool.noConfusion hx
      · obtain ⟨hconq, hnlq⟩ := live_guards hge h0 hact
        obtain ⟨bv, hbv⟩ := dispatchValue_toggle opts ht
        rw [heq, ← hne,
          resolve_writeSegs_self (targetOf e) ρ _ (targetOf_ne_nil e) hconq hact hnlq, hbv]
        rfl
  · rw [applyD_frame opts hge hgo hr1 hr2 (Or.inr hto) hne]
    exact hbu

theorem GoodD_applyD (opts : ArgletOptions) {ρ : JSVal} {e dObs : String × Option String}
    (hge : GoodD ρ e) (hgo : GoodD ρ dObs) (hr1 : DRel e dObs) (hr2 : DRel dObs e) :
    GoodD (applyD opts ρ e) dObs := by
  constructor
  · intro hv
    refine ⟨(hgo.1 hv).1, ?_⟩
    rw [applyD_lengthTargetB opts hge hgo hr1 hr2 hv]
    exact (hgo.1 hv).2
  · intro ht
    exact ⟨(hgo.2 ht).1, applyD_boolOrUndefined opts hge hgo hr1 hr2 ht (hgo.2 ht).2⟩

theorem DRel_self (d : String × Option String) : DRel d d := by
  refine ⟨fun hv _ => Or.inl rfl, fun hv ht => ?_, fun ht hv => ?_⟩
  · exact (value_toggle_excl hv ht).elim
  · exact (value_toggle_excl hv ht).elim

theorem DRel_symm {d e : String × Option String} (h : DRel d e) : DRel e d := by
  refine ⟨fun hv1 hv2 => ?_, fun hv ht => h.2.2 ht hv, fun ht hv => h.2.1 hv ht⟩
  rcases h.1 hv2 hv1 with heq | ⟨h1, h2⟩
  · exact Or.inl heq.symm
  · exact Or.inr ⟨h2, h1⟩

theorem pairwise_DRel_all {D : List (String × Option String)} (h : List.Pairwise DRel D) :
    ∀ d ∈ D, ∀ e ∈ D, DRel d e := by
  intro d hd e he
  by_cases hde : d = e
  · subst hde
    exact DRel_self d
  · exact List.Pairwise.forall (fun a b hab => DRel_symm hab) h hd he hde

theorem GoodD_all_applyD (opts : ArgletOptions) {ρ : JSVal}
    {S : List (String × Option String)} {e : String × Option String} (he : e ∈ S)
    (hrel : ∀ x ∈ S, ∀ y ∈ S, DRel x y) (hinv : ∀ x ∈ S, GoodD ρ x) :
    ∀ y ∈ S, GoodD (applyD opts ρ e) y := fun y hy =>
  GoodD_applyD opts (hinv e he) (hinv y hy) (hrel e he y hy) (hrel y hy e he)

theorem GoodD_applyFold (opts : ArgletOptions) :
    ∀ (L S : List (String × Option String)) (ρ : JSVal),
      (∀ x ∈ L, x ∈ S) → (∀ x ∈ S, ∀ y ∈ S, DRel x y) →
      (∀ x ∈ S, GoodD ρ x) →
      ∀ x ∈ S, GoodD (applyFold opts ρ L) x
  | [], _, _, _, _, hinv, x, hx => hinv x hx
  | e :: L', S, ρ, hsub, hrel, hinv, x, hx => by
      have he : e ∈ S := hsub e (by simp)
      show GoodD (applyFold opts (applyD opts ρ e) L') x
      exact GoodD_applyFold opts L' S (applyD opts ρ e)
        (fun z hz => hsub z (by simp [hz])) hrel
        (GoodD_all_applyD opts he hrel hinv) x hx

theorem resolve_applyFold_frame (opts : ArgletOptions) :
    ∀ (L S : List (String × Option String)) (ρ : JSVal)
      (dObs : String × Option String),
      (∀ x ∈ L, x ∈ S) → (∀ x ∈ S, ∀ y ∈ S, DRel x y) → (∀ x ∈ S, GoodD ρ x) →
      dObs ∈ S → (isValueD dObs = true ∨ isToggleD dObs = true) →
      (∀ x ∈ L, targetOf x ≠ targetOf dObs) →
      (targetOf dObs).foldl resolveStep (applyFold opts ρ L)
        = (targetOf dObs).foldl resolveStep ρ
  | [], _, _, _, _, _, _, _, _, _ => rfl
  | e :: L', S, ρ, dObs, hsub, hrel, hinv, ho, hkind, hnt => by
      have he : e ∈ S := hsub e (by simp)
      show (targetOf dObs).foldl resolveStep (applyFold opts (applyD opts ρ e) L')
        = (targetOf dObs).foldl resolveStep ρ
      rw [resolve_applyFold_frame opts L' S (applyD opts ρ e) dObs
        (fun z hz => hsub z (by simp [hz])) hrel
        (GoodD_all_applyD opts he hrel hinv) ho hkind
        (fun z hz => hnt z (by simp [hz]))]
      exact applyD_frame opts (hinv e he) (hinv dObs ho) (hrel e he dObs ho)
        (hrel dObs ho e he) hkind (hnt e (by simp))

theorem liveness_applyFold (opts : ArgletOptions) :
    ∀ (L S : List (String × Option String)) (ρ : JSVal)
      (dObs : String × Option String),
      (∀ x ∈ L, x ∈ S) → (∀ x ∈ S, ∀ y ∈ S, DRel x y) → (∀ x ∈ S, GoodD ρ x) →
      dObs ∈ S → (isValueD dObs = true ∨ isToggleD dObs = true) →
      ((((targetOf dObs).foldl resolveStep (applyFold opts ρ L)))).isUndefined
        = ((((targetOf dObs).foldl resolveStep ρ))).isUndefined
  | [], _, _, _, _, _, _, _, _ => rfl
  | e :: L', S, ρ, dObs, hsub, hrel, hinv, ho, hkind => by
      have he : e ∈ S := hsub e (by simp)
      show ((targetOf dObs).foldl resolveStep
          (applyFold opts (applyD opts ρ e) L')).isUndefined = _
      rw [liveness_applyFold opts L' S (applyD opts ρ e) dObs
        (fun z hz => hsub z (by simp [hz])) hrel
        (GoodD_all_applyD opts he hrel hinv) ho hkind]
      exact applyD_liveness opts (hinv e he) (hinv dObs ho) (hrel e he dObs ho)
        (hrel dObs ho e he) hkind

theorem target_nonprefix {Y : JSVal} {d e : String × Option String}
    (hgd : GoodD Y d) (hrde : DRel d e)
    (h0d : d.1 ≠ "") (h0e : e.1 ≠ "")
    (hle : ((((targetOf e).foldl resolveStep Y))).isUndefined = false)
    (hne : targetOf d ≠ targetOf e) :
    segPrefixOf (targetOf d) (targetOf e) = false := by
  cases hx : segPrefixOf (targetOf d) (targetOf e) with
  | false => rfl
  | true =>
      exfalso
      obtain ⟨u, hu, hteu⟩ := segPrefixOf_strict hx hne
      have hcont : (((targetOf d).foldl resolveStep Y)).isContainer = true := by
        apply container_of_live_extension (targetOf d) u Y hu
        rw [← hteu]
        exact hle
      rcases value_or_toggle h0d with ⟨hvd, _⟩ | ⟨htd, _⟩
      · rcases value_or_toggle h0e with ⟨hve, _⟩ | ⟨hte, _⟩
        · rcases hrde.1 hvd hve with heq | ⟨h1, _⟩
          · exact hne heq
          · rw [hx] at h1
            exact Bool.noConfusion h1
        · have h1 := hrde.2.1 hvd hte
          rw [hx] at h1
          exact Bool.noConfusion h1
      · have hbu := (hgd.2 htd).2
        rw [boolOrUndefined_not_container hbu] at hcont
        exact Bool.noConfusion hcont

theorem applyFold_absorb (opts : ArgletOptions) :
    ∀ (L S : List (String × Option String)) (Y : JSVal) (d : String × Option String),
      (∀ x ∈ L, x ∈ S) → (∀ x ∈ S, ∀ y ∈ S, DRel x y) → (∀ x ∈ S, GoodD Y x) →
      d ∈ S → d.1 ≠ "" →
      ((((targetOf d).foldl resolveStep Y))).isUndefined = false →
      (∃ e ∈ L, targetOf e = targetOf d) →
      applyFold opts (writeSegs Y (targetOf d) (dispatchValue opts d)) L
        = applyFold opts Y L
  | [], _, _, _, _, _, _, _, _, _, hwit => by simp at hwit
  | e :: L', S, Y, d, hsub, hrel, hinv, hd, h0, hlive, hwit => by
      have he : e ∈ S := hsub e (by simp)
      obtain ⟨hconq, hnlq⟩ := live_guards (hinv d hd) h0 hlive
      have hXd : writeSegs Y (targetOf d) (dispatchValue opts d) = applyD opts Y d :=
        (applyD_live h0 hlive).symm
      by_cases het : targetOf e = targetOf d
      · -- the write is absorbed by e, which targets the same path
        have he0 : e.1 ≠ "" := by
          intro h
          have hte : targetOf e = [""] := by
            rw [targetOf, h]
            rfl
          rw [hte] at het
          rw [← het] at hconq
          simp at hconq
        have hlivee : ((((targetOf e).foldl resolveStep Y))).isUndefined = false := by
          rw [het]
          exact hlive
        have hliveX : ((((targetOf e).foldl resolveStep
            (writeSegs Y (targetOf d) (dispatchValue opts d))))).isUndefined = false := by
          rw [het,
            resolve_writeSegs_self (targetOf d) Y _ (targetOf_ne_nil d) hconq hlive hnlq]
          exact dispatchValue_not_undefined opts d
        show applyFold opts
            (applyD opts (writeSegs Y (targetOf d) (dispatchValue opts d)) e) L'
          = applyFold opts (applyD opts Y e) L'
        rw [applyD_live he0 hliveX, applyD_live he0 hlivee, het,
          writeSegs_overwrite (targetOf d) Y _ _ hconq hlive hnlq
            (dispatchValue_not_undefined opts d)]
      · -- the write commutes with e and is absorbed later
        obtain ⟨w, hwL, hwt⟩ := hwit
        have hwit' : ∃ x ∈ L', targetOf x = targetOf d := by
          rcases List.mem_cons.mp hwL with h | h
          · exact absurd (h ▸ hwt) het
          · exact ⟨w, h, hwt⟩
        by_cases he0 : e.1 = ""
        · show applyFold opts
              (applyD opts (writeSegs Y (targetOf d) (dispatchValue opts d)) e) L'
            = applyFold opts (applyD opts Y e) L'
          rw [applyD_empty he0, applyD_empty he0]
          exact applyFold_absorb opts L' S Y d (fun z hz => hsub z (by simp [hz]))
            hrel hinv hd h0 hlive hwit'
        · have hkd : isValueD e = true ∨ isToggleD e = true := by
            rcases value_or_toggle he0 with ⟨hv, _⟩ | ⟨ht, _⟩
            · exact Or.inl hv
            · exact Or.inr ht
          have hframe : (targetOf e).foldl resolveStep
              (writeSegs Y (targetOf d) (dispatchValue opts d))
                = (targetOf e).foldl resolveStep Y := by
            rw [hXd]
            exact applyD_frame opts (hinv d hd) (hinv e he) (hrel d hd e he)
              (hrel e he d hd) hkd (fun h => het h.symm)
          show applyFold opts
              (applyD opts (writeSegs Y (targetOf d) (dispatchValue opts d)) e) L'
            = applyFold opts (applyD opts Y e) L'
          cases hacte : ((targetOf e).foldl resolveStep Y).isUndefined with
          | true =>
              have hacte' : (((targetOf e).foldl resolveStep
                  (writeSegs Y (targetOf d) (dispatchValue opts d)))).isUndefined
                    = true := by
                rw [hframe]
                exact hacte
              rw [applyD_dead hacte, applyD_dead hacte']
              exact applyFold_absorb opts L' S Y d (fun z hz => hsub z (by simp [hz]))
                hrel hinv hd h0 hlive hwit'
          | false =>
              have hacte' : (((targetOf e).foldl resolveStep
                  (writeSegs Y (targetOf d) (dispatchValue opts d)))).isUndefined
                    = false := by
                rw [hframe]
                exact hacte
              obtain ⟨hconp, hnlp⟩ := live_guards (hinv e he) he0 hacte
              have hnp1 : segPrefixOf (targetOf d) (targetOf e) = false :=
                target_nonprefix (hinv d hd) (hrel d hd e he) h0 he0 hacte
                  (fun h => het h.symm)
              have hnp2 : segPrefixOf (targetOf e) (targetOf d) = false :=
                target_nonprefix (hinv e he) (hrel e he d hd) he0 h0 hlive het
              rw [applyD_live he0 hacte', applyD_live he0 hacte,
                writeSegs_comm (targetOf d) (targetOf e) Y _ _ hconq hconp hlive hacte
                  hnlq hnlp hnp1 hnp2]
              have hliveY' : ((((targetOf d).foldl resolveStep
                  (applyD opts Y e)))).isUndefined = false := by
                rw [applyD_liveness opts (hinv e he) (hinv d hd) (hrel e he d hd)
                  (hrel d hd e he) (by
                    rcases value_or_toggle h0 with ⟨hv, _⟩ | ⟨ht, _⟩
                    · exact Or.inl hv
                    · exact Or.inr ht)]
                exact hlive
              have hstep := applyFold_absorb opts L' S (applyD opts Y e) d
                (fun z hz => hsub z (by simp [hz])) hrel
                (GoodD_all_applyD opts he hrel hinv) hd h0 hliveY' hwit'
              rw [applyD_live he0 hacte] at hstep
              exact hstep

theorem applyFold_idem (opts : ArgletOptions) :
    ∀ (D S : List (String × Option String)) (ρ : JSVal),
      (∀ x ∈ D, x ∈ S) → (∀ x ∈ S, ∀ y ∈ S, DRel x y) → (∀ x ∈ S, GoodD ρ x) →
      applyFold opts (applyFold opts ρ D) D = applyFold opts ρ D
  | [], _, _, _, _, _ => rfl
  | d :: D', S, ρ, hsub, hrel, hinv => by
      have hd : d ∈ S := hsub d (by simp)
      have hsub' : ∀ z ∈ D', z ∈ S := fun z hz => hsub z (by simp [hz])
      have hinv1 : ∀ x ∈ S, GoodD (applyD opts ρ d) x := GoodD_all_applyD opts hd hrel hinv
      have hIH : applyFold opts (applyFold opts (applyD opts ρ d) D') D'
          = applyFold opts (applyD opts ρ d) D' :=
        applyFold_idem opts D' S (applyD opts ρ d) hsub' hrel hinv1
      have hinvR : ∀ x ∈ S, GoodD (applyFold opts (applyD opts ρ d) D') x :=
        GoodD_applyFold opts D' S (applyD opts ρ d) hsub' hrel hinv1
      show applyFold opts
          (applyD opts (applyFold opts (applyD opts ρ d) D') d) D'
        = applyFold opts (applyD opts ρ d) D'
      by_cases h0 : d.1 = ""
      · rw [applyD_empty h0]
        exact hIH
      · have hkd : isValueD d = true ∨ isToggleD d = true := by
          rcases value_or_toggle h0 with ⟨hv, _⟩ | ⟨ht, _⟩
          · exact Or.inl hv
          · exact Or.inr ht
        have hlfold := liveness_applyFold opts D' S (applyD opts ρ d) d hsub' hrel
          hinv1 hd hkd
        cases hliveρ : ((((targetOf d).foldl resolveStep ρ))).isUndefined with
        | true =>
            have hρ1 : applyD opts ρ d = ρ := applyD_dead hliveρ
            have hdeadR : ((((targetOf d).foldl resolveStep
                (applyFold opts (applyD opts ρ d) D')))).isUndefined = true := by
              rw [hlfold, hρ1]
              exact hliveρ
            rw [applyD_dead hdeadR]
            exact hIH
        | false =>
            obtain ⟨hconq, hnlq⟩ := live_guards (hinv d hd) h0 hliveρ
            have hρ1 : applyD opts ρ d
                = writeSegs ρ (targetOf d) (dispatchValue opts d) :=
              applyD_live h0 hliveρ
            have hliveR : ((((targetOf d).foldl resolveStep
                (applyFold opts (applyD opts ρ d) D')))).isUndefined = false := by
              rw [hlfold, hρ1,
                resolve_writeSegs_self (targetOf d) ρ _ (targetOf_ne_nil d)
                  hconq hliveρ hnlq]
              exact dispatchValue_not_undefined opts d
            by_cases hwit : ∃ e ∈ D', targetOf e = targetOf d
            · rw [applyD_live h0 hliveR,
                applyFold_absorb opts D' S (applyFold opts (applyD opts ρ d) D') d
                  hsub' hrel hinvR hd h0 hliveR hwit]
              exact hIH
            · push_neg at hwit
              have hRq : (targetOf d).foldl resolveStep
                  (applyFold opts (applyD opts ρ d) D') = dispatchValue opts d := by
                rw [resolve_applyFold_frame opts D' S (applyD opts ρ d) d hsub' hrel
                  hinv1 hd hkd hwit, hρ1,
                  resolve_writeSegs_self (targetOf d) ρ _ (targetOf_ne_nil d)
                    hconq hliveρ hnlq]
              obtain ⟨hconR, hnlR⟩ := live_guards (hinvR d hd) h0 hliveR
              rw [applyD_live h0 hliveR,
                writeSegs_self_absorb (targetOf_ne_nil d) hconR hliveR hnlR hRq]
              exact hIH

theorem dispatchFold_char (opts : ArgletOptions) :
    ∀ (D S : List (String × Option String)) (s : MergeState),
      (∀ x ∈ D, x ∈ S) → (∀ x ∈ S, ∀ y ∈ S, DRel x y) →
      (∀ x ∈ S, GoodD s.result x) →
      dispatchFold opts s D = .ok { s with result := applyFold opts s.result D }
  | [], _, s, _, _, _ => rfl
  | d :: D', S, s, hsub, hrel, hinv => by
      have hd : d ∈ S := hsub d (by simp)
      have hchar := parseFlag_char opts s d
        (fun hv => ((hinv d hd).1 hv).2) (fun ht => ((hinv d hd).2 ht).2)
      show (match parseFlag opts s d.1 d.2 with
            | .ok s' => dispatchFold opts s' D'
            | .thrown msg st => MergeResult.thrown msg st)
          = .ok { s with result := applyFold opts s.result (d :: D') }
      rw [hchar]
      show dispatchFold opts { s with result := applyD opts s.result d } D'
          = .ok { s with result := applyFold opts s.result (d :: D') }
      exact dispatchFold_char opts D' S { s with result := applyD opts s.result d }
        (fun z hz => hsub z (by simp [hz])) hrel
        (fun x hx => GoodD_all_applyD opts hd hrel hinv x hx)

/-- C8: as amended — idempotence of the merge under the target discipline
`GoodDispatches`, which admits negation flags, bare boolean toggles, dotted
paths, separator-split array values, multi-`=` tokens, and repeated flag
names: both runs return normally and the second pass over the same tokens
reproduces the first pass's result exactly. -/
theorem c8_amended_good_dispatches_idempotent (data : JSVal) (T : List String)
    (opts : ArgletOptions) (hg : GoodDispatches data (dispatches T)) :
    ∃ R, arglet data T opts = .ok R ∧ arglet R T opts = .ok R := by
  obtain ⟨hinv, hpw⟩ := hg
  have hrel := pairwise_DRel_all hpw
  refine ⟨applyFold opts data (dispatches T), ?_, ?_⟩
  · show (match argLoop opts ⟨data, data, false⟩ T with
          | .ok s => Except.ok s.result
          | .thrown msg _ => .error msg)
        = .ok (applyFold opts data (dispatches T))
    rw [argLoop_eq_dispatchFold,
      dispatchFold_char opts (dispatches T) (dispatches T) ⟨data, data, false⟩
        (fun x hx => hx) hrel hinv]
  · have hinvR : ∀ x ∈ dispatches T, GoodD (applyFold opts data (dispatches T)) x :=
      GoodD_applyFold opts (dispatches T) (dispatches T) data (fun x hx => hx) hrel hinv
    show (match argLoop opts
            ⟨applyFold opts data (dispatches T),
             applyFold opts data (dispatches T), false⟩ T with
          | .ok s => Except.ok s.result
          | .thrown msg _ => .error msg)
        = .ok (applyFold opts data (dispatches T))
    rw [argLoop_eq_dispatchFold,
      dispatchFold_char opts (dispatches T) (dispatches T)
        ⟨applyFold opts data (dispatches T), applyFold opts data (dispatches T), false⟩
        (fun x hx => hx) hrel hinvR]
    show Except.ok (applyFold opts (applyFold opts data (dispatches T)) (dispatches T))
      = .ok (applyFold opts data (dispatches T))
    rw [applyFold_idem opts (dispatches T) (dispatches T) data (fun x hx => hx) hrel hinv]

theorem c8_amended_witness :
    GoodDispatches
      (.obj [("name", .str "sriman"), ("verbose", .bool false),
             ("cache", .bool true), ("ids", .arr []),
             ("server", .obj [("host", .str "localhost")])])
      (dispatches ["--name=tene", "--verbose", "--no-cache", "--ids=1,2",
        "--server.host=0.0.0.0=x", "--name", "b"])
    ∧ ∃ R,
      arglet
        (.obj [("name", .str "sriman"), ("verbose", .bool false),
               ("cache", .bool true), ("ids", .arr []),
               ("server", .obj [("host", .str "localhost")])])
        ["--name=tene", "--verbose", "--no-cache", "--ids=1,2",
          "--server.host=0.0.0.0=x", "--name", "b"] ⟨false, .comma⟩ = .ok R
      ∧ arglet R
          ["--name=tene", "--verbose", "--no-cache", "--ids=1,2",
            "--server.host=0.0.0.0=x", "--name", "b"] ⟨false, .comma⟩ = .ok R :=
  ⟨by decide,
   c8_amended_good_dispatches_idempotent
     (.obj [("name", .str "sriman"), ("verbose", .bool false),
            ("cache", .bool true), ("ids", .arr []),
            ("server", .obj [("host", .str "localhost")])])
     ["--name=tene", "--verbose", "--no-cache", "--ids=1,2",
       "--server.host=0.0.0.0=x", "--name", "b"] ⟨false, .comma⟩ (by decide)⟩
